import Mathlib

/-!
# Verification of the engagement-analysis core (`src/engagement_analysis.py`)

Shallow embedding of the aggregation pipeline of the repository
`Multiplayer-Game-Engagement-Dashboard`: type coercion, categorical
normalization, global KPI computation (`compute_kpis`), grouped segment
aggregation (`segment_analysis` / `group_by`), and the percentage formatter
(`_format_percentage`).

Modelling conventions:
* Python/NumPy floating-point numbers are idealized as rationals (`ℚ`); the
  floating NaN missing-value sentinel is `Option.none`.  Non-finite float
  literals (`inf`, `nan` spelled as strings) are outside the numeric domain.
* A pandas `DataFrame` is a `Table`: a list of column names plus a list of
  rows, each row a list of `Cell`s aligned with the column list.
* `pd.to_numeric(..., errors="coerce")` and Python `float(...)` on strings are
  modelled by a decimal-literal parser (optional sign, digits, optional
  fractional part); unparsable values become the missing marker.
* String operations (`str.strip`, `str.title`) are modelled character-wise
  with ASCII letter/whitespace semantics, matching CPython's behaviour on
  ASCII data.
* A raised Python exception is `Except.error`; in particular
  `DataFrame.groupby(col).agg({})` (an empty aggregation dictionary, which
  pandas turns into a concatenation of zero objects) raises
  `ValueError("No objects to concatenate")`.
-/

namespace Engagement

/-! ## Python character and string primitives (ASCII semantics) -/

/-- ASCII whitespace recognised by Python's `str.strip`:
space, tab, newline, carriage return, vertical tab, form feed. -/
def pyIsSpace (c : Char) : Bool :=
  c.toNat = 32 ∨ c.toNat = 9 ∨ c.toNat = 10 ∨ c.toNat = 13 ∨ c.toNat = 11 ∨ c.toNat = 12

/-- ASCII cased character (letter, `a`–`z` or `A`–`Z`); the "word" characters
of `str.title`. -/
def pyIsCased (c : Char) : Bool :=
  (97 ≤ c.toNat ∧ c.toNat ≤ 122) ∨ (65 ≤ c.toNat ∧ c.toNat ≤ 90)

/-- ASCII uppercase conversion (as in CPython for ASCII). -/
def pyUpperChar (c : Char) : Char :=
  if 97 ≤ c.toNat ∧ c.toNat ≤ 122 then Char.ofNat (c.toNat - 32) else c

/-- ASCII lowercase conversion (as in CPython for ASCII). -/
def pyLowerChar (c : Char) : Char :=
  if 65 ≤ c.toNat ∧ c.toNat ≤ 90 then Char.ofNat (c.toNat + 32) else c

/-- One step of `str.title`: a cased character is uppercased when the previous
character was not cased, lowercased otherwise; uncased characters pass
through (for ASCII, `upper`/`lower` fix them anyway). -/
def pyTitleChar (prevCased : Bool) (c : Char) : Char :=
  if prevCased then pyLowerChar c else pyUpperChar c

/-- Character list worker of `str.title`, carrying the previous-is-cased flag. -/
def pyTitleAux (prevCased : Bool) : List Char → List Char
  | [] => []
  | c :: cs => pyTitleChar prevCased c :: pyTitleAux (pyIsCased c) cs

/-- Python `str.title` on a string. -/
def pyTitle (s : String) : String :=
  ⟨pyTitleAux false s.data⟩

/-- Strip leading and trailing whitespace from a character list. -/
def pyStripList (l : List Char) : List Char :=
  ((l.dropWhile pyIsSpace).reverse.dropWhile pyIsSpace).reverse

/-- Python `str.strip()` (no arguments: whitespace). -/
def pyStrip (s : String) : String :=
  ⟨pyStripList s.data⟩

/-- The categorical normalization used throughout the pipeline:
`.astype(str).str.strip().str.title()` restricted to an already-string value:
trim surrounding whitespace, then title-case. -/
def normStr (s : String) : String :=
  pyTitle (pyStrip s)

/-! ## Cells and numeric coercion -/

/-- One cell of the record table: a (finite) number, a string, or the
missing marker (NaN / absent value). -/
inductive Cell : Type where
  | num (q : ℚ) : Cell
  | str (s : String) : Cell
  | missing : Cell
  deriving DecidableEq, Repr

/-- Value of a natural-number digit character. -/
def digitVal (c : Char) : ℕ := c.toNat - 48

/-- Read a digit run as a natural number. -/
def digitsToNat (l : List Char) : ℕ :=
  l.foldl (fun n c => 10 * n + digitVal c) 0

/-- Parse an unsigned decimal literal (digits, optionally a point and more
digits; at least one digit overall). -/
def parseUnsigned (l : List Char) : Option ℚ :=
  let intPart := l.takeWhile Char.isDigit
  let rest := l.dropWhile Char.isDigit
  match rest with
  | [] => if intPart.isEmpty then none else some (digitsToNat intPart)
  | '.' :: frac =>
    let fracPart := frac.takeWhile Char.isDigit
    let rest2 := frac.dropWhile Char.isDigit
    if rest2.isEmpty ∧ ¬ (intPart.isEmpty ∧ fracPart.isEmpty) then
      some ((digitsToNat intPart : ℚ) + (digitsToNat fracPart : ℚ) / (10 : ℚ) ^ fracPart.length)
    else none
  | _ => none

/-- Parse a signed decimal literal after stripping surrounding whitespace;
model of the numeric string conversions (`pd.to_numeric`, `float`) on the
decimal-literal fragment.  Returns `none` where Python would fail to parse
(for `to_numeric(errors="coerce")`: produce NaN; for `float`: raise). -/
def parseNum (s : String) : Option ℚ :=
  match pyStripList s.data with
  | '-' :: rest => (parseUnsigned rest).map (fun q => -q)
  | '+' :: rest => parseUnsigned rest
  | l => parseUnsigned l

/-- The numeric value of a cell under `pd.to_numeric(..., errors="coerce")`:
numbers pass through, missing stays missing, strings are parsed. -/
def cellToNum : Cell → Option ℚ
  | Cell.num q => some q
  | Cell.str s => parseNum s
  | Cell.missing => none

/-- Model of `pd.to_numeric(..., errors="coerce")` on one cell. -/
def toNumericCell (c : Cell) : Cell :=
  match cellToNum c with
  | some q => Cell.num q
  | none => Cell.missing

/-- Decimal rendering of a natural number quotient `n / 10^k`-free part:
digits of `n`. -/
def natRepr (n : ℕ) : String := toString n

/-- Fractional digits of `|q|` (q with `0 ≤ q < 1` given as num/den), up to
`k` digits, as produced by repeated multiplication by 10. -/
def fracDigits : ℕ → ℕ → ℕ → List Char
  | 0, _, _ => []
  | _ + 1, _, 0 => []
  | k + 1, num, den =>
    if num = 0 then []
    else
      let num10 := num * 10
      let d := num10 / den
      Char.ofNat (48 + d) :: fracDigits k (num10 % den) den

/-- Best-effort model of Python `str(float)` for finite values: sign, integer
part, decimal point, then fractional digits (up to 17) with `".0"` when the
value is integral.  Only its type matters to the claims below — the pipeline
applies it to numeric cells before categorical normalization, and no claim
constrains its exact digits. -/
def numRepr (q : ℚ) : String :=
  let sign := if q < 0 then "-" else ""
  let a := |q|
  let whole : ℕ := a.num.toNat / a.den
  let rem : ℕ := a.num.toNat % a.den
  let frac := fracDigits 17 rem a.den
  sign ++ natRepr whole ++ "." ++ (if frac.isEmpty then "0" else ⟨frac⟩)

/-- Model of `astype(str)` on one cell: strings pass through, NaN prints as `"nan"`,
numbers print via `str(float)`. -/
def cellStr : Cell → String
  | Cell.str s => s
  | Cell.num q => numRepr q
  | Cell.missing => "nan"

/-- Categorical normalization of one cell:
`.astype(str).str.strip().str.title()`.  The result is always a string cell. -/
def normCell (c : Cell) : Cell :=
  Cell.str (normStr (cellStr c))

/-! ## Tables -/

/-- A pandas `DataFrame`: column names plus rows of cells.  Row `r` is aligned
positionally with `cols`; a rectangular frame satisfies `Table.Aligned`. -/
structure Table : Type where
  cols : List String
  rows : List (List Cell)
  deriving DecidableEq, Repr

/-- Rectangularity: every row has one cell per column. -/
def Table.Aligned (t : Table) : Prop :=
  ∀ r ∈ t.rows, r.length = t.cols.length

instance (t : Table) : Decidable t.Aligned := by
  unfold Table.Aligned; infer_instance

/-- Index of a column name in a column list (first occurrence). -/
def colIdx? (cols : List String) (c : String) : Option ℕ :=
  cols.findIdx? (fun x => x = c)

/-- The cell of row `r` in column `c` (missing when the column is absent or
the row is too short). -/
def cellAt (cols : List String) (r : List Cell) (c : String) : Cell :=
  match colIdx? cols c with
  | some i => r.getD i Cell.missing
  | none => Cell.missing

/-- Column presence, `c in df.columns`. -/
def Table.hasCol (t : Table) (c : String) : Prop := c ∈ t.cols

instance (t : Table) (c : String) : Decidable (t.hasCol c) := by
  unfold Table.hasCol; infer_instance

/-- The column `c` of the table, as the list of its cells (`df[c]`). -/
def Table.colCells (t : Table) (c : String) : List Cell :=
  t.rows.map (fun r => cellAt t.cols r c)

/-- Apply `f` to the cell at position `i` of a row. -/
def modifyIdx (f : Cell → Cell) : ℕ → List Cell → List Cell
  | _, [] => []
  | 0, c :: cs => f c :: cs
  | n + 1, c :: cs => c :: modifyIdx f n cs

/-- Column update `df[c] = df[c].map(f)`: apply `f` down one named column (no-op when the
column is absent). -/
def mapCol (t : Table) (c : String) (f : Cell → Cell) : Table :=
  match colIdx? t.cols c with
  | some i => ⟨t.cols, t.rows.map (modifyIdx f i)⟩
  | none => t

/-- Coerce each of the named columns that is present:
`df[col] = pd.to_numeric(df[col], errors="coerce")` for each `col`. -/
def coerceCols (names : List String) (t : Table) : Table :=
  names.foldl (fun acc c => mapCol acc c toNumericCell) t

/-- Append one extra column (name `c`, cells `vs`) on the right of a table. -/
def addCol (t : Table) (c : String) (vs : List Cell) : Table :=
  ⟨t.cols ++ [c], List.zipWith (fun r v => r ++ [v]) t.rows vs⟩

/-! ## Numeric helpers -/

/-- Floor of a rational as an integer (computed by floor division). -/
def ratFloor (q : ℚ) : ℤ := Int.fdiv q.num q.den

/-- Round to the nearest integer, ties to even — the rounding of Python's
built-in `round` and of `format(x, '.2f')`, idealized over `ℚ`. -/
def roundHalfEven (q : ℚ) : ℤ :=
  let f := ratFloor q
  let r := q - (f : ℚ)
  if r < 1 / 2 then f
  else if 1 / 2 < r then f + 1
  else if f % 2 = 0 then f else f + 1

/-- Python `round(q, d)` (idealized over `ℚ`). -/
def roundTo (d : ℕ) (q : ℚ) : ℚ :=
  (roundHalfEven (q * (10 : ℚ) ^ d) : ℚ) / (10 : ℚ) ^ d

/-- Model of `_safe_divide`:
`float(numerator) / float(denominator) if float(denominator or 0) != 0 else 0.0`. -/
def safeDivide (numerator denominator : ℚ) : ℚ :=
  if denominator ≠ 0 then numerator / denominator else 0

/-- The numeric (non-missing) entries of a column of cells. -/
def cellNums (cells : List Cell) : List ℚ :=
  cells.filterMap (fun c => match c with | Cell.num q => some q | _ => none)

/-- Model of `Series.mean()` with `skipna` semantics: mean of the non-missing entries,
NaN (`none`) when there are none. -/
def seriesMean (cells : List Cell) : Option ℚ :=
  if cellNums cells = [] then none
  else some ((cellNums cells).sum / ((cellNums cells).length : ℚ))

/-- Model of `Series.sum()` with `skipna` semantics (0 when all entries are missing). -/
def seriesSum (cells : List Cell) : ℚ := (cellNums cells).sum

/-- Model of `Series.count()`: number of non-missing entries. -/
def seriesCount (cells : List Cell) : ℕ :=
  cells.countP (fun c => c ≠ Cell.missing)

/-! ## `compute_kpis` -/

/-- The numeric columns coerced at the top of `compute_kpis`. -/
def kpiNumericCols : List String :=
  ["PlayTimeHours", "InGamePurchases", "SessionsPerWeek",
   "AvgSessionDurationMinutes", "PlayerLevel", "AchievementsUnlocked"]

/-- The KPI mapping returned by `compute_kpis`.  `Option ℚ` fields use `none`
for the float NaN ("undefined") sentinel. -/
structure KpiResult : Type where
  total_players : ℕ
  average_session_duration_minutes : Option ℚ
  average_sessions_per_week : Option ℚ
  average_purchases_per_user : Option ℚ
  retention_rate_high_engagement : Option ℚ
  deriving DecidableEq, Repr

/-- The preprocessing at the top of `compute_kpis`: coerce the six numeric
columns, then normalize `EngagementLevel` when present. -/
def kpiPrep (t : Table) : Table :=
  if (coerceCols kpiNumericCols t).hasCol "EngagementLevel" then
    mapCol (coerceCols kpiNumericCols t) "EngagementLevel" normCell
  else coerceCols kpiNumericCols t

/-- Model of `compute_kpis`: coerce the six numeric columns, normalize
`EngagementLevel` when present, then compute the four KPI values plus the row
count.  `round(x, k) if not np.isnan(x) else np.nan` is `Option.map (roundTo k)`. -/
def compute_kpis (t : Table) : KpiResult :=
  let t2 := kpiPrep t
  let total_players := t2.rows.length
  let avg_session_duration :=
    if t2.hasCol "AvgSessionDurationMinutes" then seriesMean (t2.colCells "AvgSessionDurationMinutes") else none
  let avg_sessions_per_week :=
    if t2.hasCol "SessionsPerWeek" then seriesMean (t2.colCells "SessionsPerWeek") else none
  let avg_purchases_per_user :=
    if t2.hasCol "InGamePurchases" then seriesMean (t2.colCells "InGamePurchases") else none
  let retention_rate :=
    if t2.hasCol "EngagementLevel" then
      some (safeDivide ((t2.colCells "EngagementLevel").countP (fun c => c = Cell.str "High") : ℚ)
        (total_players : ℚ))
    else none
  { total_players := total_players
    average_session_duration_minutes := avg_session_duration.map (roundTo 2)
    average_sessions_per_week := avg_sessions_per_week.map (roundTo 2)
    average_purchases_per_user := avg_purchases_per_user.map (roundTo 2)
    retention_rate_high_engagement := retention_rate.map (roundTo 4) }

/-! ## `segment_analysis` -/

/-- An aggregation function of the `aggregations` dictionary. -/
inductive AggFun : Type where
  | mean : AggFun
  | sum : AggFun
  | count : AggFun
  deriving DecidableEq, Repr

/-- The pandas name of an aggregation function (used in flattened labels). -/
def aggFunName : AggFun → String
  | AggFun.mean => "mean"
  | AggFun.sum => "sum"
  | AggFun.count => "count"

/-- The `aggregations` dictionary of `segment_analysis`, in insertion order:
means of the three numeric metrics, additionally the sum of purchases, and
the count of `PlayerID`. -/
def aggregations : List (String × List AggFun) :=
  [("AvgSessionDurationMinutes", [AggFun.mean]),
   ("SessionsPerWeek", [AggFun.mean]),
   ("InGamePurchases", [AggFun.mean, AggFun.sum]),
   ("PlayerID", [AggFun.count])]

/-- The dictionary `available_aggs` flattened to its output `(column, function)` pairs, in
dictionary order — one pair per aggregation output column. -/
def availablePairs (t : Table) : List (String × AggFun) :=
  (aggregations.filter (fun p => decide (p.1 ∈ t.cols))).flatMap
    (fun p => p.2.map (fun f => (p.1, f)))

/-- Flattened output column label: `"<col>_<fn>"`, with `PlayerID_count`
renamed to `num_players`. -/
def flatName (p : String × AggFun) : String :=
  let n := p.1 ++ "_" ++ aggFunName p.2
  if n = "PlayerID_count" then "num_players" else n

/-- Apply one aggregation function to the cells of a column restricted to one
group. -/
def applyAgg : AggFun → List Cell → Option ℚ
  | AggFun.mean, cells => seriesMean cells
  | AggFun.sum, cells => some (seriesSum cells)
  | AggFun.count, cells => some (seriesCount cells : ℚ)

/-- Insert into an ascending list, before the first element `y` with
`le x y`; used by the stable ascending sort below. -/
def insertAsc (le : α → α → Bool) (x : α) : List α → List α
  | [] => [x]
  | y :: ys => if le x y then x :: y :: ys else y :: insertAsc le x ys

/-- Stable ascending sort (insertion sort): the deterministic stable-sort
semantics of the pandas/numpy ascending argsort used on the small segment
tables. -/
def sortAsc (le : α → α → Bool) : List α → List α
  | [] => []
  | x :: xs => insertAsc le x (sortAsc le xs)

/-- Code-point comparison of character lists (Python string `<=`). -/
def charListLe : List Char → List Char → Bool
  | [], _ => true
  | _ :: _, [] => false
  | a :: as, b :: bs =>
    if a.toNat < b.toNat then true
    else if b.toNat < a.toNat then false
    else charListLe as bs

/-- Python string `<=` (code-point lexicographic). -/
def strLe (a b : String) : Bool := charListLe a.data b.data

/-- One row of a segment table: the group-key value followed by its
aggregation outputs (`none` = NaN). -/
abbrev SegRow : Type := String × List (Option ℚ)

/-- A segment table produced by `group_by`: flattened column names (grouping
key first) and one row per distinct key.  `pd.DataFrame()` is `⟨[], []⟩`. -/
structure SegTable : Type where
  cols : List String
  rows : List SegRow
  deriving DecidableEq, Repr

/-- Model of `DataFrame.sort_values(by=..., ascending=False)` on a float sort key:
rows with non-NaN keys are sorted ascending by a stable sort and the result
is reversed (pandas reverses the stable ascending indexer for a descending
sort), and rows with NaN keys are appended at the end (`na_position="last"`)
in their pre-sort order. -/
def sortDescOptQ (key : SegRow → Option ℚ) (l : List SegRow) : List SegRow :=
  let somes := l.filter (fun a => (key a).isSome)
  let nones := l.filter (fun a => (key a).isNone)
  (sortAsc (fun a b => decide ((key a).getD 0 ≤ (key b).getD 0)) somes).reverse ++ nones

/-- Model of `DataFrame.sort_values(by=..., ascending=False)` on a string sort key
(no NaNs): stable ascending sort, then reverse. -/
def sortDescStr (key : SegRow → String) (l : List SegRow) : List SegRow :=
  (sortAsc (fun a b => strLe (key a) (key b)) l).reverse

/-- The group key a row falls in: the value of the grouping column.  The
grouping columns have been through `.astype(str)` in normalization, so this
is the cell's string form. -/
def rowKey (cols : List String) (col : String) (r : List Cell) : String :=
  cellStr (cellAt cols r col)

/-- The distinct group keys, ascending (`groupby(col)` sorts keys). -/
def groupKeys (t : Table) (col : String) : List String :=
  sortAsc strLe (t.rows.map (rowKey t.cols col)).dedup

/-- The member rows of one group, in table order. -/
def groupMembers (t : Table) (col : String) (k : String) : List (List Cell) :=
  t.rows.filter (fun r => rowKey t.cols col r = k)

/-- The aggregated (unsorted) segment row of one group key. -/
def segRowOf (t : Table) (col : String) (k : String) : SegRow :=
  (k, (availablePairs t).map
    (fun p => applyAgg p.2 ((groupMembers t col k).map (fun r => cellAt t.cols r p.1))))

/-- Model of the inner `group_by` of `segment_analysis`.  Mirrors the source:
* `available_aggs` restricts `aggregations` to present columns;
* an absent grouping column yields the empty `pd.DataFrame()`;
* `df.groupby(col).agg(available_aggs)` with an empty aggregation dictionary
  raises `ValueError("No objects to concatenate")` (pandas concatenates the
  per-key aggregation results, of which there are none);
* otherwise: one row per distinct key (keys ascending), flattened labels with
  `PlayerID_count` renamed `num_players`, then
  `sort_values(by=grouped.columns[1] if grouped.shape[1] > 1 else col,
  ascending=False)` — `grouped.columns` here is pre-`reset_index`, so the
  `by` column is the *second aggregation output* when there are at least two
  aggregation outputs, and the grouping key itself otherwise. -/
def group_by (t : Table) (col : String) : Except String SegTable :=
  let available := availablePairs t
  if ¬ t.hasCol col then Except.ok ⟨[], []⟩
  else if available.isEmpty then Except.error "No objects to concatenate"
  else
    let aggRows := (groupKeys t col).map (segRowOf t col)
    let sorted :=
      if available.length > 1 then sortDescOptQ (fun row => row.2.getD 1 none) aggRows
      else sortDescStr Prod.fst aggRows
    Except.ok ⟨col :: available.map flatName, sorted⟩

/-- The numeric columns coerced at the top of `segment_analysis`. -/
def segNumericCols : List String :=
  ["AvgSessionDurationMinutes", "SessionsPerWeek", "InGamePurchases"]

/-- The categorical columns normalized by `segment_analysis` (also its three
grouping keys). -/
def segCatCols : List String := ["GameGenre", "Location", "EngagementLevel"]

/-- The preprocessing of `segment_analysis`: coerce the numeric columns, then
normalize the categorical columns (each step skips absent columns). -/
def segPrep (t : Table) : Table :=
  segCatCols.foldl (fun acc c => mapCol acc c normCell) (coerceCols segNumericCols t)

/-- The three segment tables returned by `segment_analysis`. -/
structure SegResult : Type where
  by_genre : SegTable
  by_location : SegTable
  by_engagement : SegTable
  deriving DecidableEq, Repr

/-- Model of `segment_analysis`: preprocess, then run `group_by` for the three keys in
the order the result dict is built; the first exception propagates. -/
def segment_analysis (t : Table) : Except String SegResult := do
  let tl := segPrep t
  let g ← group_by tl "GameGenre"
  let l ← group_by tl "Location"
  let e ← group_by tl "EngagementLevel"
  return ⟨g, l, e⟩

/-- Select one of the three segment tables by grouping key name. -/
def SegResult.forKey (s : SegResult) (c : String) : SegTable :=
  if c = "GameGenre" then s.by_genre
  else if c = "Location" then s.by_location
  else s.by_engagement

/-! ## `_format_percentage` -/

/-- A Python value reaching the formatter: a finite float, the float NaN, or
a string. -/
inductive PyVal : Type where
  | num (q : ℚ) : PyVal
  | nan : PyVal
  | str (s : String) : PyVal
  deriving DecidableEq, Repr

/-- Python `float(...)`: `none` when the conversion raises, `some none` for
NaN, `some (some q)` for a finite value.  String conversion accepts a decimal
literal or (case-insensitively, optionally signed) `"nan"` after stripping
whitespace. -/
def pyFloat? : PyVal → Option (Option ℚ)
  | PyVal.num q => some (some q)
  | PyVal.nan => some none
  | PyVal.str s =>
    let l := pyStripList s.data
    let core := match l with
      | '+' :: r => r
      | '-' :: r => r
      | r => r
    if core.map pyLowerChar = "nan".data then some none
    else (parseNum s).map some

/-- Two-digit zero-padded rendering of a remainder below 100: the two
fractional digits of the `.2f` format. -/
def pad2 (n : ℕ) : String :=
  ⟨[Char.ofNat (48 + n / 10 % 10), Char.ofNat (48 + n % 10)]⟩

/-- Python `f"{q:.2f}"` for a finite value (idealized over `ℚ`):
round half-to-even at two decimals, then print with exactly two fractional
digits. -/
def formatFixed2 (q : ℚ) : String :=
  let n := roundHalfEven (q * 100)
  let a := n.natAbs
  (if n < 0 then "-" else "") ++ toString (a / 100) ++ "." ++ pad2 (a % 100)

/-- Model of `_format_percentage`: `f"{100.0 * float(x):.2f}%"`, with the `except`
branch returning `"n/a"` when `float(x)` raises.  `100.0 * nan` is NaN and
formats as `"nan"`. -/
def format_percentage (x : PyVal) : String :=
  match pyFloat? x with
  | none => "n/a"
  | some none => "nan%"
  | some (some q) => formatFixed2 (100 * q) ++ "%"

/-- The retention KPI as the Python value handed to `_format_percentage` by
the driver (`none` is the float NaN). -/
def kpiToPyVal : Option ℚ → PyVal
  | some q => PyVal.num q
  | none => PyVal.nan

/-! ## Spec-side comparison definitions -/

/-- Spec-side mean rule (for the refinement claims): the mean of the
successfully parsed values of the source column, rounded to 2 decimal
places; the undefined sentinel when the column is absent or no value
parses. -/
def specMean2dp (t : Table) (c : String) : Option ℚ :=
  if t.hasCol c ∧ (t.colCells c).filterMap cellToNum ≠ [] then
    some (roundTo 2 ((((t.colCells c).filterMap cellToNum).sum : ℚ) /
      (((t.colCells c).filterMap cellToNum).length : ℚ)))
  else none

/-- Spec-side count of rows whose normalized engagement value is exactly
`"High"`. -/
def specHighCount (t : Table) : ℕ :=
  (t.colCells "EngagementLevel").countP (fun cl => normStr (cellStr cl) = "High")

/-- Descending order on optional sort keys, NaN (`none`) always allowed on
the right only when the left is also NaN, so that NaNs come last. -/
def descOrd : Option ℚ → Option ℚ → Prop
  | some x, some y => y ≤ x
  | none, some _ => False
  | _, _ => True

instance : DecidableRel descOrd := by
  intro a b
  rcases a with _ | x <;> rcases b with _ | y <;> simp only [descOrd] <;> infer_instance

/-- Sortedness of segment rows descending by aggregation output `j` (the
`j+2`-nd output column), NaN keys last. -/
def RowsDescBy (j : ℕ) (rows : List SegRow) : Prop :=
  rows.Pairwise (fun a b => descOrd (a.2.getD j none) (b.2.getD j none))

instance (j : ℕ) (rows : List SegRow) : Decidable (RowsDescBy j rows) := by
  unfold RowsDescBy; infer_instance

/-- Sortedness of segment rows descending by the grouping-key value. -/
def RowsDescByKey (rows : List SegRow) : Prop :=
  rows.Pairwise (fun a b => strLe b.1 a.1 = true)

/-! ## Concrete example tables -/

/-- The empty table: no columns, no rows. -/
def emptyTable : Table := ⟨[], []⟩

/-- The spec scenario of four engagement rows
`["high", "High", "Low", " LOW "]`. -/
def tblHigh4 : Table :=
  ⟨["EngagementLevel"],
   [[Cell.str "high"], [Cell.str "High"], [Cell.str "Low"], [Cell.str " LOW "]]⟩

/-- A session-duration column `["10", "bad", "20"]` with an unparsable
entry. -/
def tblMean : Table :=
  ⟨["AvgSessionDurationMinutes"], [[Cell.str "10"], [Cell.str "bad"], [Cell.str "20"]]⟩

/-- Two genre groups for which descending order by the first aggregation
column (`AvgSessionDurationMinutes_mean`: 1 vs 2) and by the second
(`SessionsPerWeek_mean`: 10 vs 5) disagree. -/
def tblSort : Table :=
  ⟨["GameGenre", "AvgSessionDurationMinutes", "SessionsPerWeek"],
   [[Cell.str "A", Cell.num 1, Cell.num 10],
    [Cell.str "B", Cell.num 2, Cell.num 5]]⟩

/-- A one-row table with every aggregation-eligible column present. -/
def tblFull : Table :=
  ⟨["PlayerID", "GameGenre", "AvgSessionDurationMinutes", "SessionsPerWeek", "InGamePurchases"],
   [[Cell.str "p1", Cell.str "Sports", Cell.num 10, Cell.num 3, Cell.num 1]]⟩

/-- A table with a grouping column but no aggregation-eligible column at
all: `available_aggs` is empty and `groupby(...).agg({})` raises. -/
def tblNoAgg : Table := ⟨["GameGenre"], [[Cell.str "X"]]⟩

attribute [local semireducible] Rat.mul Rat.inv Rat.add Rat.sub

/-! ## Character facts -/

theorem toNat_ofNat_valid (n : ℕ) (h : n < 55296) : (Char.ofNat n).toNat = n := by
  unfold Char.ofNat
  rw [dif_pos (Or.inl h)]
  simp [Char.ofNatAux, Char.toNat, UInt32.ofNat', UInt32.toNat, BitVec.toNat_ofNatLt]

theorem isDigit_of_toNat (c : Char) (h1 : 48 ≤ c.toNat) (h2 : c.toNat ≤ 57) :
    c.isDigit = true := by
  simp only [Char.isDigit, Bool.and_eq_true, decide_eq_true_eq]
  simp only [Char.toNat, UInt32.toNat] at h1 h2
  constructor
  · change (48 : UInt32) ≤ c.val
    simp only [UInt32.le_def, BitVec.le_def]
    simpa using h1
  · change c.val ≤ (57 : UInt32)
    simp only [UInt32.le_def, BitVec.le_def]
    simpa using h2

theorem toNat_pyUpperChar (c : Char) :
    (pyUpperChar c).toNat = if 97 ≤ c.toNat ∧ c.toNat ≤ 122 then c.toNat - 32 else c.toNat := by
  unfold pyUpperChar
  split
  · next h => rw [toNat_ofNat_valid _ (by omega)]
  · rfl

theorem toNat_pyLowerChar (c : Char) :
    (pyLowerChar c).toNat = if 65 ≤ c.toNat ∧ c.toNat ≤ 90 then c.toNat + 32 else c.toNat := by
  unfold pyLowerChar
  split
  · next h => rw [toNat_ofNat_valid _ (by omega)]
  · rfl

/-! ## Basic table lemmas -/

theorem hasCol_iff (t : Table) (c : String) : t.hasCol c ↔ c ∈ t.cols := Iff.rfl

theorem mapCol_cols (t : Table) (c : String) (f : Cell → Cell) :
    (mapCol t c f).cols = t.cols := by
  unfold mapCol; split <;> rfl

theorem mapCol_rows_length (t : Table) (c : String) (f : Cell → Cell) :
    (mapCol t c f).rows.length = t.rows.length := by
  unfold mapCol; split <;> simp

theorem coerceCols_cols : ∀ (names : List String) (t : Table),
    (coerceCols names t).cols = t.cols
  | [], _ => rfl
  | n :: ns, t => by
    show (coerceCols ns (mapCol t n toNumericCell)).cols = t.cols
    rw [coerceCols_cols ns, mapCol_cols]

theorem coerceCols_rows_length : ∀ (names : List String) (t : Table),
    (coerceCols names t).rows.length = t.rows.length
  | [], _ => rfl
  | n :: ns, t => by
    show (coerceCols ns (mapCol t n toNumericCell)).rows.length = t.rows.length
    rw [coerceCols_rows_length ns, mapCol_rows_length]

theorem segPrep_cols (t : Table) : (segPrep t).cols = t.cols := by
  show (mapCol (mapCol (mapCol (coerceCols segNumericCols t)
    "GameGenre" normCell) "Location" normCell) "EngagementLevel" normCell).cols = t.cols
  rw [mapCol_cols, mapCol_cols, mapCol_cols, coerceCols_cols]

theorem segPrep_rows_length (t : Table) : (segPrep t).rows.length = t.rows.length := by
  show (mapCol (mapCol (mapCol (coerceCols segNumericCols t)
    "GameGenre" normCell) "Location" normCell) "EngagementLevel" normCell).rows.length = _
  rw [mapCol_rows_length, mapCol_rows_length, mapCol_rows_length, coerceCols_rows_length]

theorem availablePairs_congr_cols (t u : Table) (h : t.cols = u.cols) :
    availablePairs t = availablePairs u := by
  unfold availablePairs; rw [h]

theorem availablePairs_segPrep (t : Table) :
    availablePairs (segPrep t) = availablePairs t :=
  availablePairs_congr_cols _ _ (segPrep_cols t)

/-! ## Column access lemmas -/

theorem colIdx?_getElem {cols : List String} {c : String} {i : ℕ}
    (h : colIdx? cols c = some i) : ∃ hlt : i < cols.length, cols.get ⟨i, hlt⟩ = c := by
  unfold colIdx? at h
  obtain ⟨hlt, hp, -⟩ := List.findIdx?_eq_some_iff_getElem.mp h
  exact ⟨hlt, by simpa using hp⟩

theorem colIdx?_ne {cols : List String} {c c' : String} {i i' : ℕ}
    (hc : colIdx? cols c = some i) (hc' : colIdx? cols c' = some i')
    (hne : c ≠ c') : i ≠ i' := by
  intro he
  obtain ⟨h1, e1⟩ := colIdx?_getElem hc
  obtain ⟨h2, e2⟩ := colIdx?_getElem hc'
  subst he
  rw [← e1, ← e2] at hne
  exact hne rfl

theorem colIdx?_isSome_iff (cols : List String) (c : String) :
    (colIdx? cols c).isSome ↔ c ∈ cols := by
  unfold colIdx?
  rw [List.findIdx?_isSome]
  simp

theorem colIdx?_eq_none_iff (cols : List String) (c : String) :
    colIdx? cols c = none ↔ c ∉ cols := by
  rw [← colIdx?_isSome_iff]
  cases colIdx? cols c <;> simp

theorem modifyIdx_length (f : Cell → Cell) :
    ∀ (i : ℕ) (r : List Cell), (modifyIdx f i r).length = r.length
  | 0, [] => rfl
  | _ + 1, [] => rfl
  | 0, _ :: _ => rfl
  | n + 1, _ :: cs => congrArg Nat.succ (modifyIdx_length f n cs)

theorem modifyIdx_getD_ne (f : Cell → Cell) :
    ∀ (i j : ℕ) (r : List Cell), i ≠ j →
      (modifyIdx f i r).getD j Cell.missing = r.getD j Cell.missing
  | 0, _, [], _ => rfl
  | _ + 1, _, [], _ => rfl
  | 0, 0, _ :: _, hne => absurd rfl hne
  | 0, _ + 1, _ :: _, _ => rfl
  | _ + 1, 0, _ :: _, _ => rfl
  | n + 1, m + 1, _ :: cs, hne =>
    modifyIdx_getD_ne f n m cs (fun h => hne (congrArg Nat.succ h))

theorem modifyIdx_getD_self (f : Cell → Cell) (hf : f Cell.missing = Cell.missing) :
    ∀ (i : ℕ) (r : List Cell),
      (modifyIdx f i r).getD i Cell.missing = f (r.getD i Cell.missing)
  | 0, [] => by simp [modifyIdx, hf]
  | _ + 1, [] => by simp [modifyIdx, hf]
  | 0, _ :: _ => rfl
  | n + 1, _ :: cs => modifyIdx_getD_self f hf n cs

theorem modifyIdx_getD_self_of_lt (f : Cell → Cell) :
    ∀ (i : ℕ) (r : List Cell), i < r.length →
      (modifyIdx f i r).getD i Cell.missing = f (r.getD i Cell.missing)
  | _, [], h => absurd h (by simp)
  | 0, _ :: _, _ => rfl
  | n + 1, _ :: cs, h => modifyIdx_getD_self_of_lt f n cs (Nat.lt_of_succ_lt_succ h)

theorem mapCol_absent (t : Table) (c : String) (f : Cell → Cell)
    (h : ¬ t.hasCol c) : mapCol t c f = t := by
  unfold mapCol
  rw [(colIdx?_eq_none_iff t.cols c).mpr h]

theorem colCells_mapCol_ne (t : Table) (c c' : String) (f : Cell → Cell)
    (hne : c' ≠ c) : (mapCol t c f).colCells c' = t.colCells c' := by
  unfold mapCol
  cases hidx : colIdx? t.cols c with
  | none => rfl
  | some i =>
    unfold Table.colCells
    simp only [List.map_map]
    refine List.map_congr_left (fun r _ => ?_)
    unfold cellAt
    cases hidx' : colIdx? t.cols c' with
    | none => rfl
    | some j =>
      exact modifyIdx_getD_ne f i j r (colIdx?_ne hidx hidx' (fun h => hne h.symm))

theorem colCells_mapCol_self (t : Table) (c : String) (f : Cell → Cell)
    (hf : f Cell.missing = Cell.missing) :
    (mapCol t c f).colCells c = (t.colCells c).map f := by
  unfold mapCol
  cases hidx : colIdx? t.cols c with
  | none =>
    unfold Table.colCells cellAt
    rw [hidx, List.map_map]
    exact List.map_congr_left (fun r _ => by simp [hf])
  | some i =>
    unfold Table.colCells cellAt
    simp only [List.map_map, hidx]
    exact List.map_congr_left (fun r _ => modifyIdx_getD_self f hf i r)

theorem colCells_mapCol_self_aligned (t : Table) (c : String) (f : Cell → Cell)
    (hA : t.Aligned) (hc : t.hasCol c) : (mapCol t c f).colCells c = (t.colCells c).map f := by
  unfold mapCol
  cases hidx : colIdx? t.cols c with
  | none => exact absurd ((colIdx?_eq_none_iff t.cols c).mp hidx) (not_not_intro hc)
  | some i =>
    unfold Table.colCells cellAt
    simp only [List.map_map, hidx]
    refine List.map_congr_left (fun r hr => ?_)
    obtain ⟨hlt, -⟩ := colIdx?_getElem hidx
    exact modifyIdx_getD_self_of_lt f i r (by rw [hA r hr]; exact hlt)

theorem mapCol_aligned (t : Table) (c : String) (f : Cell → Cell)
    (hA : t.Aligned) : (mapCol t c f).Aligned := by
  unfold mapCol
  cases hidx : colIdx? t.cols c with
  | none => exact hA
  | some i =>
    intro r hr
    simp only [List.mem_map] at hr
    obtain ⟨r0, hr0, rfl⟩ := hr
    rw [modifyIdx_length]
    exact hA r0 hr0

theorem coerceCols_aligned : ∀ (names : List String) (t : Table),
    t.Aligned → (coerceCols names t).Aligned
  | [], _, hA => hA
  | n :: ns, t, hA =>
    coerceCols_aligned ns (mapCol t n toNumericCell) (mapCol_aligned t n toNumericCell hA)

theorem colCells_coerceCols_notmem : ∀ (names : List String) (t : Table) (c : String),
    c ∉ names → (coerceCols names t).colCells c = t.colCells c
  | [], _, _, _ => rfl
  | n :: ns, t, c, h => by
    show (coerceCols ns (mapCol t n toNumericCell)).colCells c = t.colCells c
    rw [colCells_coerceCols_notmem ns _ c (fun hm => h (List.mem_cons_of_mem n hm)),
      colCells_mapCol_ne t n c toNumericCell (fun he => h (he ▸ List.mem_cons_self n ns))]

theorem colCells_coerceCols_mem : ∀ (names : List String) (t : Table) (c : String),
    c ∈ names → names.Nodup →
    (coerceCols names t).colCells c = (t.colCells c).map toNumericCell
  | [], _, _, h, _ => absurd h (by simp)
  | n :: ns, t, c, hmem, hnd => by
    show (coerceCols ns (mapCol t n toNumericCell)).colCells c = _
    rcases List.mem_cons.mp hmem with he | hm
    · subst he
      rw [colCells_coerceCols_notmem ns _ c (List.Nodup.not_mem hnd),
        colCells_mapCol_self t c toNumericCell rfl]
    · have hne : c ≠ n := fun he => (List.Nodup.not_mem hnd) (he ▸ hm)
      rw [colCells_coerceCols_mem ns _ c hm (List.Nodup.of_cons hnd),
        colCells_mapCol_ne t n c toNumericCell hne]

/-! ## `kpiPrep` lemmas -/

theorem kpiPrep_cols (t : Table) : (kpiPrep t).cols = t.cols := by
  unfold kpiPrep
  split
  · rw [mapCol_cols, coerceCols_cols]
  · rw [coerceCols_cols]

theorem kpiPrep_rows_length (t : Table) : (kpiPrep t).rows.length = t.rows.length := by
  unfold kpiPrep
  split
  · rw [mapCol_rows_length, coerceCols_rows_length]
  · rw [coerceCols_rows_length]

theorem kpiPrep_hasCol (t : Table) (c : String) : (kpiPrep t).hasCol c ↔ t.hasCol c := by
  unfold Table.hasCol
  rw [kpiPrep_cols]

theorem colCells_kpiPrep_ne (t : Table) (c : String) (hne : c ≠ "EngagementLevel")
    (hmem : c ∈ kpiNumericCols) :
    (kpiPrep t).colCells c = (t.colCells c).map toNumericCell := by
  unfold kpiPrep
  split
  · rw [colCells_mapCol_ne _ _ _ _ hne, colCells_coerceCols_mem _ t c hmem (by decide)]
  · rw [colCells_coerceCols_mem _ t c hmem (by decide)]

theorem colCells_kpiPrep_engagement (t : Table) (hA : t.Aligned)
    (h : t.hasCol "EngagementLevel") :
    (kpiPrep t).colCells "EngagementLevel" =
      (t.colCells "EngagementLevel").map normCell := by
  unfold kpiPrep
  have h1 : (coerceCols kpiNumericCols t).hasCol "EngagementLevel" := by
    unfold Table.hasCol
    rw [coerceCols_cols]
    exact h
  rw [if_pos h1, colCells_mapCol_self_aligned _ _ _ (coerceCols_aligned _ t hA) h1,
    colCells_coerceCols_notmem _ t _ (by decide)]

/-! ## C1 -/

/-- Helper: when `EngagementLevel` is absent, `retention_rate` stays at its
initial `np.nan` and `compute_kpis` returns the undefined sentinel. -/
theorem retention_none_of_absent (t : Table) (h : ¬ t.hasCol "EngagementLevel") :
    (compute_kpis t).retention_rate_high_engagement = none := by
  have h2 : ¬ (kpiPrep t).hasCol "EngagementLevel" := fun hc => h ((kpiPrep_hasCol t _).mp hc)
  simp [compute_kpis, h2]

/-- C1 counterexample: for the empty table (which lacks an
`EngagementLevel` column), `compute_kpis` returns the undefined sentinel
(NaN, modelled `none`) for `retention_rate_high_engagement` — not 0.0 as the
claim states. -/
theorem c1_counterexample :
    ¬ emptyTable.hasCol "EngagementLevel" ∧
    (compute_kpis emptyTable).retention_rate_high_engagement = none ∧
    (compute_kpis emptyTable).retention_rate_high_engagement ≠ some 0 := by
  refine ⟨?_, ?_, ?_⟩ <;> decide

/-- C1 (amended): for every input table that lacks an `EngagementLevel`
column, `compute_kpis` returns the "undefined" sentinel (NaN) for
`retention_rate_high_engagement`, not 0.0. -/
theorem c1_retention_undefined_without_engagement_col (t : Table)
    (h : ¬ t.hasCol "EngagementLevel") :
    (compute_kpis t).retention_rate_high_engagement = none :=
  retention_none_of_absent t h

/-- C1 witness: the amended theorem applied to a concrete table without an
`EngagementLevel` column. -/
theorem c1_retention_undefined_witness :
    ¬ (Table.mk ["Age"] [[Cell.num 30]]).hasCol "EngagementLevel" ∧
    (compute_kpis (Table.mk ["Age"] [[Cell.num 30]])).retention_rate_high_engagement = none :=
  ⟨by decide, c1_retention_undefined_without_engagement_col _ (by decide)⟩

/-! ## C2 -/

/-- C2: for every (rectangular) input table with an `EngagementLevel`
column, `compute_kpis` returns for `retention_rate_high_engagement` the
number of rows whose normalized engagement value is exactly `"High"`,
divided by the total row count (0.0 on an empty table, by `_safe_divide`),
rounded to 4 decimal places — in particular never the "undefined"
sentinel. -/
theorem c2_retention_formula (t : Table) (hA : t.Aligned)
    (h : t.hasCol "EngagementLevel") :
    (compute_kpis t).retention_rate_high_engagement =
      some (roundTo 4 (safeDivide (specHighCount t : ℚ) (t.rows.length : ℚ))) := by
  have h2 : (kpiPrep t).hasCol "EngagementLevel" := (kpiPrep_hasCol t _).mpr h
  have hcount : ((kpiPrep t).colCells "EngagementLevel").countP
      (fun c => decide (c = Cell.str "High")) = specHighCount t := by
    rw [colCells_kpiPrep_engagement t hA h, List.countP_map]
    exact List.countP_congr (fun cl _ => by simp [normCell, Function.comp])
  simp only [compute_kpis, if_pos h2, Option.map_some]
  rw [kpiPrep_rows_length, hcount]
  rfl

/-- C2 witness: the 4-row scenario `["high", "High", "Low", " LOW "]`
normalizes to two `"High"` rows out of four, giving retention 0.5. -/
theorem c2_retention_witness :
    tblHigh4.Aligned ∧ tblHigh4.hasCol "EngagementLevel" ∧
    (compute_kpis tblHigh4).retention_rate_high_engagement = some (1 / 2) := by
  refine ⟨by decide, by decide, ?_⟩
  rw [c2_retention_formula tblHigh4 (by decide) (by decide)]
  decide

/-! ## C5 -/

theorem cellNums_cons_num (q : ℚ) (l : List Cell) :
    cellNums (Cell.num q :: l) = q :: cellNums l := rfl

theorem cellNums_cons_missing (l : List Cell) :
    cellNums (Cell.missing :: l) = cellNums l := rfl

/-- Helper: coercing a column cell-wise and then collecting its numeric
entries is collecting the parses of the original cells. -/
theorem cellNums_map_toNumeric : ∀ l : List Cell,
    cellNums (l.map toNumericCell) = l.filterMap cellToNum
  | [] => rfl
  | c :: cs => by
    rw [List.map_cons]
    cases hc : cellToNum c with
    | none =>
      rw [show toNumericCell c = Cell.missing from by unfold toNumericCell; rw [hc],
        cellNums_cons_missing, List.filterMap_cons_none hc]
      exact cellNums_map_toNumeric cs
    | some q =>
      rw [show toNumericCell c = Cell.num q from by unfold toNumericCell; rw [hc],
        cellNums_cons_num, List.filterMap_cons_some hc]
      rw [cellNums_map_toNumeric cs]

/-- Helper: one mean-KPI field of `compute_kpis` follows the spec-side mean
rule for its source column. -/
theorem mean_field_eq_specMean (t : Table) (c : String)
    (hmem : c ∈ kpiNumericCols) (hne : c ≠ "EngagementLevel") :
    (if (kpiPrep t).hasCol c then seriesMean ((kpiPrep t).colCells c) else none).map
      (roundTo 2) = specMean2dp t c := by
  have hcells : (kpiPrep t).colCells c = (t.colCells c).map toNumericCell :=
    colCells_kpiPrep_ne t c hne hmem
  have hhas : (kpiPrep t).hasCol c ↔ t.hasCol c := kpiPrep_hasCol t c
  by_cases h : t.hasCol c
  · rw [if_pos (hhas.mpr h)]
    unfold seriesMean
    rw [hcells, cellNums_map_toNumeric]
    by_cases hv : (t.colCells c).filterMap cellToNum = []
    · unfold specMean2dp
      rw [if_pos hv, if_neg (fun hand => hand.2 hv)]
      rfl
    · unfold specMean2dp
      rw [if_neg hv, if_pos ⟨h, hv⟩]
      rfl
  · rw [if_neg (fun hc2 => h (hhas.mp hc2))]
    unfold specMean2dp
    rw [if_neg (fun hand => h hand.1)]
    rfl

set_option maxHeartbeats 1600000 in
/-- C5: each mean KPI of `compute_kpis` equals the arithmetic mean of the
successfully parsed values of its source column rounded to 2 decimal
places, and is the "undefined" sentinel when the column is absent, the
table is empty, or nothing parses; unparsable values are skipped, never an
error — concretely the mean over `["10", "bad", "20"]` is 15.0. -/
theorem c5_mean_kpis :
    (∀ t : Table,
      (compute_kpis t).average_session_duration_minutes =
        specMean2dp t "AvgSessionDurationMinutes" ∧
      (compute_kpis t).average_sessions_per_week = specMean2dp t "SessionsPerWeek" ∧
      (compute_kpis t).average_purchases_per_user = specMean2dp t "InGamePurchases") ∧
    (compute_kpis tblMean).average_session_duration_minutes = some 15 ∧
    specMean2dp tblMean "AvgSessionDurationMinutes" = some 15 := by
  have hgen : ∀ t : Table,
      (compute_kpis t).average_session_duration_minutes =
        specMean2dp t "AvgSessionDurationMinutes" ∧
      (compute_kpis t).average_sessions_per_week = specMean2dp t "SessionsPerWeek" ∧
      (compute_kpis t).average_purchases_per_user = specMean2dp t "InGamePurchases" := by
    intro t
    refine ⟨?_, ?_, ?_⟩
    · exact mean_field_eq_specMean t "AvgSessionDurationMinutes" (by decide) (by decide)
    · exact mean_field_eq_specMean t "SessionsPerWeek" (by decide) (by decide)
    · exact mean_field_eq_specMean t "InGamePurchases" (by decide) (by decide)
  refine ⟨hgen, ?_, ?_⟩
  · rw [(hgen tblMean).1]
    decide
  · decide


/-! ## C6: idempotence of categorical normalization -/

theorem charEq_of_toNat {a b : Char} (h : a.toNat = b.toNat) : a = b := by
  apply Char.ext
  unfold Char.toNat at h
  exact UInt32.ext h

theorem pyTitleChar_toNat (p : Bool) (c : Char) :
    (pyTitleChar p c).toNat =
      if p then (if 65 ≤ c.toNat ∧ c.toNat ≤ 90 then c.toNat + 32 else c.toNat)
      else (if 97 ≤ c.toNat ∧ c.toNat ≤ 122 then c.toNat - 32 else c.toNat) := by
  unfold pyTitleChar
  cases p
  · simp [toNat_pyUpperChar]
  · simp [toNat_pyLowerChar]

theorem pyIsCased_pyTitleChar (p : Bool) (c : Char) :
    pyIsCased (pyTitleChar p c) = pyIsCased c := by
  unfold pyIsCased
  rw [pyTitleChar_toNat, decide_eq_decide]
  split_ifs <;> omega

theorem pyTitleChar_idem (p : Bool) (c : Char) :
    pyTitleChar p (pyTitleChar p c) = pyTitleChar p c := by
  apply charEq_of_toNat
  rw [pyTitleChar_toNat, pyTitleChar_toNat]
  split_ifs <;> omega

theorem pyIsSpace_pyTitleChar (p : Bool) (c : Char) :
    pyIsSpace (pyTitleChar p c) = pyIsSpace c := by
  unfold pyIsSpace
  rw [pyTitleChar_toNat, decide_eq_decide]
  split_ifs <;> omega

theorem pyTitleAux_idem : ∀ (l : List Char) (p : Bool),
    pyTitleAux p (pyTitleAux p l) = pyTitleAux p l
  | [], _ => rfl
  | c :: cs, p => by
    show pyTitleAux p (pyTitleChar p c :: pyTitleAux (pyIsCased c) cs) =
      pyTitleChar p c :: pyTitleAux (pyIsCased c) cs
    show pyTitleChar p (pyTitleChar p c) ::
      pyTitleAux (pyIsCased (pyTitleChar p c)) (pyTitleAux (pyIsCased c) cs) = _
    rw [pyTitleChar_idem, pyIsCased_pyTitleChar, pyTitleAux_idem cs (pyIsCased c)]

theorem pyTitleAux_head_space (p : Bool) (l : List Char) :
    ((pyTitleAux p l).head?).map pyIsSpace = (l.head?).map pyIsSpace := by
  cases l with
  | nil => rfl
  | cons c cs =>
    show some (pyIsSpace (pyTitleChar p c)) = some (pyIsSpace c)
    rw [pyIsSpace_pyTitleChar]

theorem pyTitleAux_getLast_space : ∀ (l : List Char) (p : Bool),
    ((pyTitleAux p l).getLast?).map pyIsSpace = (l.getLast?).map pyIsSpace
  | [], _ => rfl
  | [c], p => by
    show some (pyIsSpace (pyTitleChar p c)) = some (pyIsSpace c)
    rw [pyIsSpace_pyTitleChar]
  | c :: c' :: cs, p => by
    show ((pyTitleChar p c :: pyTitleAux (pyIsCased c) (c' :: cs)).getLast?).map pyIsSpace = _
    rw [show pyTitleAux (pyIsCased c) (c' :: cs) =
        pyTitleChar (pyIsCased c) c' :: pyTitleAux (pyIsCased c') cs from rfl,
      List.getLast?_cons_cons, List.getLast?_cons_cons,
      ← show pyTitleAux (pyIsCased c) (c' :: cs) =
        pyTitleChar (pyIsCased c) c' :: pyTitleAux (pyIsCased c') cs from rfl]
    exact pyTitleAux_getLast_space (c' :: cs) (pyIsCased c)

/-- Edge condition produced by `strip`: neither the first nor the last
character is whitespace. -/
def Stripped (l : List Char) : Prop :=
  (∀ x ∈ l.head?, pyIsSpace x = false) ∧ (∀ x ∈ l.getLast?, pyIsSpace x = false)

theorem dropWhile_head_false (p : Char → Bool) :
    ∀ l : List Char, ∀ x ∈ (l.dropWhile p).head?, p x = false
  | [], x, hx => by simp at hx
  | c :: cs, x, hx => by
    by_cases hpc : p c
    · rw [List.dropWhile_cons_of_pos hpc] at hx
      exact dropWhile_head_false p cs x hx
    · rw [List.dropWhile_cons_of_neg hpc] at hx
      simp only [List.head?_cons, Option.mem_some_iff] at hx
      subst hx
      exact Bool.not_eq_true _ ▸ (by simpa using hpc)

theorem dropWhile_getLast?_of_ne_nil (p : Char → Bool) :
    ∀ l : List Char, l.dropWhile p ≠ [] → (l.dropWhile p).getLast? = l.getLast?
  | [], h => absurd rfl h
  | c :: cs, h => by
    by_cases hpc : p c
    · rw [List.dropWhile_cons_of_pos hpc] at h ⊢
      have hcs : cs ≠ [] := by
        intro he
        rw [he] at h
        exact h rfl
      rw [dropWhile_getLast?_of_ne_nil p cs h]
      cases cs with
      | nil => exact absurd rfl hcs
      | cons b bs => rw [List.getLast?_cons_cons]
    · rw [List.dropWhile_cons_of_neg hpc]

theorem dropWhile_eq_self_of_head (p : Char → Bool) (l : List Char)
    (h : ∀ x ∈ l.head?, p x = false) : l.dropWhile p = l := by
  cases l with
  | nil => rfl
  | cons c cs =>
    have := h c (by simp)
    rw [List.dropWhile_cons_of_neg (by simp [this])]

theorem stripped_pyStripList (l : List Char) : Stripped (pyStripList l) := by
  unfold pyStripList
  constructor
  · intro x hx
    rw [List.head?_reverse] at hx
    by_cases he : (l.dropWhile pyIsSpace).reverse.dropWhile pyIsSpace = []
    · rw [he] at hx
      simp at hx
    · rw [dropWhile_getLast?_of_ne_nil pyIsSpace _ he, List.getLast?_reverse] at hx
      exact dropWhile_head_false pyIsSpace l x hx
  · intro x hx
    rw [List.getLast?_reverse] at hx
    exact dropWhile_head_false pyIsSpace _ x hx

theorem space_false_of_map_eq {o o' : Option Char}
    (hmap : o.map pyIsSpace = o'.map pyIsSpace)
    (h : ∀ x ∈ o', pyIsSpace x = false) : ∀ x ∈ o, pyIsSpace x = false := by
  intro x hx
  rcases o with _ | z
  · simp at hx
  · rcases o' with _ | y
    · simp at hmap
    · simp only [Option.mem_some_iff] at hx
      subst hx
      simp only [Option.map_some', Option.some.injEq] at hmap
      rw [hmap]
      exact h y rfl

theorem stripped_pyTitleAux (l : List Char) (h : Stripped l) :
    Stripped (pyTitleAux false l) :=
  ⟨space_false_of_map_eq (pyTitleAux_head_space false l) h.1,
   space_false_of_map_eq (pyTitleAux_getLast_space l false) h.2⟩

theorem pyStripList_eq_self_of_stripped (l : List Char) (h : Stripped l) :
    pyStripList l = l := by
  unfold pyStripList
  rw [dropWhile_eq_self_of_head pyIsSpace l h.1,
    dropWhile_eq_self_of_head pyIsSpace l.reverse (by
      intro x hx
      rw [List.head?_reverse] at hx
      exact h.2 x hx),
    List.reverse_reverse]

theorem normList_idem (l : List Char) :
    pyTitleAux false (pyStripList (pyTitleAux false (pyStripList l))) =
      pyTitleAux false (pyStripList l) := by
  rw [pyStripList_eq_self_of_stripped _ (stripped_pyTitleAux _ (stripped_pyStripList l)),
    pyTitleAux_idem]

/-- C6: the categorical normalization (convert to string, strip surrounding
whitespace, title-case) is idempotent, both as the string transformation and
cell-wise as applied to the table columns. -/
theorem c6_normalization_idempotent :
    (∀ s : String, normStr (normStr s) = normStr s) ∧
    (∀ c : Cell, normCell (normCell c) = normCell c) := by
  have hs : ∀ s : String, normStr (normStr s) = normStr s := by
    intro s
    show String.mk (pyTitleAux false (pyStripList (String.data (String.mk
      (pyTitleAux false (pyStripList s.data)))))) = _
    exact congrArg String.mk (normList_idem s.data)
  refine ⟨hs, fun c => ?_⟩
  show Cell.str (normStr (cellStr (Cell.str (normStr (cellStr c))))) =
    Cell.str (normStr (cellStr c))
  rw [show cellStr (Cell.str (normStr (cellStr c))) = normStr (cellStr c) from rfl, hs]

/-! ## C7 and C10 (formatter) -/

/-- Helper: a string ending in `%` is never the literal `"n/a"`. -/
theorem append_percent_ne_na (s : String) : s ++ "%" ≠ "n/a" := by
  intro h
  have h2 : s.data ++ ['%'] = ['n', '/', 'a'] := by
    have h1 := congrArg String.data h
    rwa [String.data_append] at h1
  have h3 := congrArg List.getLast? h2
  rw [List.getLast?_concat] at h3
  simp at h3

/-- Helper: the fixed-point format always produces a decimal point followed
by exactly two digits. -/
theorem formatFixed2_shape (x : ℚ) :
    ∃ (pre : String) (d1 d2 : Char),
      formatFixed2 x = pre ++ "." ++ (⟨[d1, d2]⟩ : String) ∧
      d1.isDigit = true ∧ d2.isDigit = true := by
  refine ⟨(if roundHalfEven (x * 100) < 0 then "-" else "") ++
      toString ((roundHalfEven (x * 100)).natAbs / 100),
    Char.ofNat (48 + (roundHalfEven (x * 100)).natAbs % 100 / 10 % 10),
    Char.ofNat (48 + (roundHalfEven (x * 100)).natAbs % 100 % 10), rfl, ?_, ?_⟩
  · refine isDigit_of_toNat _ ?_ ?_ <;> rw [toNat_ofNat_valid _ (by omega)] <;> omega
  · refine isDigit_of_toNat _ ?_ ?_ <;> rw [toNat_ofNat_valid _ (by omega)] <;> omega

/-- C7: the percentage formatter returns the input multiplied by 100,
rendered with a decimal point, exactly two (digit) decimal places and a
trailing `%` — concretely 0.1234 formats to `"12.34%"` — and returns the
literal `"n/a"`, rather than raising, exactly when the numeric conversion of
the input fails. -/
theorem c7_format_percentage :
    format_percentage (PyVal.num (1234 / 10000)) = "12.34%" ∧
    (∀ v : PyVal, pyFloat? v = none → format_percentage v = "n/a") ∧
    (∀ q : ℚ, ∃ (pre : String) (d1 d2 : Char),
      format_percentage (PyVal.num q) = pre ++ "." ++ (⟨[d1, d2]⟩ : String) ++ "%" ∧
      d1.isDigit = true ∧ d2.isDigit = true) := by
  refine ⟨by decide, ?_, ?_⟩
  · intro v hv
    unfold format_percentage
    rw [hv]
  · intro q
    obtain ⟨pre, d1, d2, heq, h1, h2⟩ := formatFixed2_shape (100 * q)
    exact ⟨pre, d1, d2, by rw [show format_percentage (PyVal.num q) =
      formatFixed2 (100 * q) ++ "%" from rfl, heq], h1, h2⟩

/-- C7 witness: a non-numeric string fails conversion and formats to
`"n/a"`. -/
theorem c7_format_percentage_witness :
    pyFloat? (PyVal.str "abc") = none ∧ format_percentage (PyVal.str "abc") = "n/a" :=
  ⟨by decide, c7_format_percentage.2.1 (PyVal.str "abc") (by decide)⟩

/-- C10: when the `EngagementLevel` column is absent, `compute_kpis` returns
the float NaN sentinel for the retention KPI and the percentage formatter
renders it as `"nan%"`, not `"n/a"` and not an error: `float(nan)` succeeds,
and the `"n/a"` branch is taken only when the numeric conversion fails. -/
theorem c10_nan_formats_as_nan_percent (t : Table) (h : ¬ t.hasCol "EngagementLevel") :
    format_percentage (kpiToPyVal ((compute_kpis t).retention_rate_high_engagement)) = "nan%" ∧
    pyFloat? PyVal.nan = some none ∧
    (∀ v : PyVal, format_percentage v = "n/a" → pyFloat? v = none) ∧
    ("nan%" : String) ≠ "n/a" := by
  refine ⟨?_, rfl, ?_, by decide⟩
  · rw [retention_none_of_absent t h]
    rfl
  · intro v hv
    unfold format_percentage at hv
    cases hval : pyFloat? v with
    | none => rfl
    | some o =>
      rw [hval] at hv
      cases o with
      | none => exact absurd hv (by decide)
      | some q => exact absurd hv (append_percent_ne_na _)

/-- C10 witness: the theorem applied to a concrete table lacking the
`EngagementLevel` column. -/
theorem c10_nan_formats_witness :
    ¬ (Table.mk ["PlayerID"] [[Cell.str "p1"]]).hasCol "EngagementLevel" ∧
    format_percentage (kpiToPyVal
      ((compute_kpis (Table.mk ["PlayerID"] [[Cell.str "p1"]])).retention_rate_high_engagement)) =
      "nan%" :=
  ⟨by decide, (c10_nan_formats_as_nan_percent _ (by decide)).1⟩

/-! ## `group_by` and `segment_analysis` structure lemmas -/

theorem group_by_absent (u : Table) (c : String) (h : ¬ u.hasCol c) :
    group_by u c = Except.ok ⟨[], []⟩ := by
  simp only [group_by]
  rw [if_pos h]

theorem group_by_present (u : Table) (c : String) (hc : u.hasCol c)
    (hav : ¬ (availablePairs u).isEmpty) :
    group_by u c = Except.ok ⟨c :: (availablePairs u).map flatName,
      if (availablePairs u).length > 1 then
        sortDescOptQ (fun row => row.2.getD 1 none) ((groupKeys u c).map (segRowOf u c))
      else sortDescStr Prod.fst ((groupKeys u c).map (segRowOf u c))⟩ := by
  simp only [group_by]
  rw [if_neg (not_not_intro hc), if_neg hav]

theorem group_by_ok_of_avail_ne (u : Table) (c : String)
    (hav : ¬ (availablePairs u).isEmpty) : ∃ g, group_by u c = Except.ok g := by
  by_cases hc : u.hasCol c
  · exact ⟨_, group_by_present u c hc hav⟩
  · exact ⟨_, group_by_absent u c hc⟩

theorem segment_analysis_ok (t : Table) (hav : availablePairs t ≠ []) :
    ∃ s : SegResult, segment_analysis t = Except.ok s ∧
      group_by (segPrep t) "GameGenre" = Except.ok s.by_genre ∧
      group_by (segPrep t) "Location" = Except.ok s.by_location ∧
      group_by (segPrep t) "EngagementLevel" = Except.ok s.by_engagement := by
  have hava : ¬ (availablePairs (segPrep t)).isEmpty := by
    rw [availablePairs_segPrep]
    simpa [List.isEmpty_iff] using hav
  obtain ⟨g, hg⟩ := group_by_ok_of_avail_ne (segPrep t) "GameGenre" hava
  obtain ⟨l, hl⟩ := group_by_ok_of_avail_ne (segPrep t) "Location" hava
  obtain ⟨e, he⟩ := group_by_ok_of_avail_ne (segPrep t) "EngagementLevel" hava
  refine ⟨⟨g, l, e⟩, ?_, hg, hl, he⟩
  simp only [segment_analysis]
  rw [hg, hl, he]
  rfl

theorem segment_analysis_all_absent (t : Table)
    (habs : ∀ k ∈ segCatCols, ¬ t.hasCol k) :
    segment_analysis t = Except.ok ⟨⟨[], []⟩, ⟨[], []⟩, ⟨[], []⟩⟩ := by
  have hpc : ∀ k ∈ segCatCols, ¬ (segPrep t).hasCol k := by
    intro k hk hc
    apply habs k hk
    unfold Table.hasCol at hc ⊢
    rwa [segPrep_cols] at hc
  simp only [segment_analysis]
  rw [group_by_absent _ _ (hpc "GameGenre" (by decide)),
    group_by_absent _ _ (hpc "Location" (by decide)),
    group_by_absent _ _ (hpc "EngagementLevel" (by decide))]
  rfl

theorem availablePairs_length (t : Table) :
    (availablePairs t).length =
      (if t.hasCol "AvgSessionDurationMinutes" then 1 else 0) +
      (if t.hasCol "SessionsPerWeek" then 1 else 0) +
      (if t.hasCol "InGamePurchases" then 2 else 0) +
      (if t.hasCol "PlayerID" then 1 else 0) := by
  unfold availablePairs aggregations Table.hasCol
  by_cases h1 : "AvgSessionDurationMinutes" ∈ t.cols <;>
    by_cases h2 : "SessionsPerWeek" ∈ t.cols <;>
    by_cases h3 : "InGamePurchases" ∈ t.cols <;>
    by_cases h4 : "PlayerID" ∈ t.cols <;>
    simp [List.filter_cons, h1, h2, h3, h4]

/-! ## Sorting lemmas (for C3) -/

theorem insertAsc_perm (le : α → α → Bool) (x : α) :
    ∀ l : List α, (insertAsc le x l).Perm (x :: l)
  | [] => List.Perm.refl _
  | y :: ys => by
    unfold insertAsc
    by_cases hxy : le x y = true
    · rw [if_pos hxy]
    · rw [if_neg hxy]
      exact (List.Perm.cons y (insertAsc_perm le x ys)).trans (List.Perm.swap x y ys)

theorem sortAsc_perm (le : α → α → Bool) : ∀ l : List α, (sortAsc le l).Perm l
  | [] => List.Perm.refl _
  | x :: xs => (insertAsc_perm le x (sortAsc le xs)).trans
      (List.Perm.cons x (sortAsc_perm le xs))

theorem insertAsc_pairwise (le : α → α → Bool)
    (trans : ∀ a b c, le a b = true → le b c = true → le a c = true)
    (total : ∀ a b, le a b = true ∨ le b a = true) (x : α) :
    ∀ l : List α, l.Pairwise (fun a b => le a b = true) →
      (insertAsc le x l).Pairwise (fun a b => le a b = true)
  | [], _ => List.Pairwise.cons (by simp) List.Pairwise.nil
  | y :: ys, h => by
    unfold insertAsc
    by_cases hxy : le x y = true
    · rw [if_pos hxy]
      refine List.Pairwise.cons ?_ h
      intro b hb
      rcases List.mem_cons.mp hb with rfl | hbys
      · exact hxy
      · exact trans x y b hxy ((List.pairwise_cons.mp h).1 b hbys)
    · rw [if_neg hxy]
      have hyx : le y x = true := (total x y).resolve_left hxy
      refine List.Pairwise.cons ?_
        (insertAsc_pairwise le trans total x ys (List.pairwise_cons.mp h).2)
      intro b hb
      rw [(insertAsc_perm le x ys).mem_iff] at hb
      rcases List.mem_cons.mp hb with rfl | hbys
      · exact hyx
      · exact (List.pairwise_cons.mp h).1 b hbys

theorem sortAsc_pairwise (le : α → α → Bool)
    (trans : ∀ a b c, le a b = true → le b c = true → le a c = true)
    (total : ∀ a b, le a b = true ∨ le b a = true) :
    ∀ l : List α, (sortAsc le l).Pairwise (fun a b => le a b = true)
  | [] => List.Pairwise.nil
  | x :: xs => insertAsc_pairwise le trans total x (sortAsc le xs)
      (sortAsc_pairwise le trans total xs)

theorem charListLe_total : ∀ a b : List Char, charListLe a b = true ∨ charListLe b a = true
  | [], _ => Or.inl rfl
  | _ :: _, [] => Or.inr rfl
  | a :: as, b :: bs => by
    unfold charListLe
    by_cases h1 : a.toNat < b.toNat
    · left
      simp [h1]
    · by_cases h2 : b.toNat < a.toNat
      · right
        simp [h2]
      · rcases charListLe_total as bs with h | h
        · left
          simp [h1, h2, h]
        · right
          simp [h1, h2, h]

theorem charListLe_trans : ∀ a b c : List Char,
    charListLe a b = true → charListLe b c = true → charListLe a c = true
  | [], _, _, _, _ => rfl
  | _ :: _, [], _, h1, _ => by simp [charListLe] at h1
  | _ :: _, _ :: _, [], _, h2 => by simp [charListLe] at h2
  | a :: as, b :: bs, c :: cs, h1, h2 => by
    unfold charListLe at h1 h2 ⊢
    by_cases hab : a.toNat < b.toNat
    · by_cases hbc : b.toNat < c.toNat
      · simp [show a.toNat < c.toNat from by omega]
      · by_cases hcb : c.toNat < b.toNat
        · simp [hbc, hcb] at h2
        · simp [show a.toNat < c.toNat from by omega]
    · by_cases hba : b.toNat < a.toNat
      · simp [hab, hba] at h1
      · by_cases hbc : b.toNat < c.toNat
        · simp [show a.toNat < c.toNat from by omega]
        · by_cases hcb : c.toNat < b.toNat
          · simp [hbc, hcb] at h2
          · have h1' : charListLe as bs = true := by simpa [hab, hba] using h1
            have h2' : charListLe bs cs = true := by simpa [hbc, hcb] using h2
            have hac : ¬ a.toNat < c.toNat := by omega
            have hca : ¬ c.toNat < a.toNat := by omega
            simp [hac, hca, charListLe_trans as bs cs h1' h2']

theorem strLe_total (a b : String) : strLe a b = true ∨ strLe b a = true :=
  charListLe_total a.data b.data

theorem strLe_trans (a b c : String) :
    strLe a b = true → strLe b c = true → strLe a c = true :=
  charListLe_trans a.data b.data c.data

theorem sortDescOptQ_pairwise (key : SegRow → Option ℚ) (l : List SegRow) :
    (sortDescOptQ key l).Pairwise (fun a b => descOrd (key a) (key b)) := by
  unfold sortDescOptQ
  apply List.pairwise_append.mpr
  refine ⟨?_, ?_, ?_⟩
  · rw [List.pairwise_reverse]
    have hp := sortAsc_pairwise (fun a b => decide ((key a).getD 0 ≤ (key b).getD 0))
      (fun a b c h1 h2 => by
        simp only [decide_eq_true_eq] at h1 h2 ⊢
        exact le_trans h1 h2)
      (fun a b => by
        simp only [decide_eq_true_eq]
        exact le_total _ _)
      (l.filter (fun a => (key a).isSome))
    refine hp.imp_of_mem (fun ha hb hle => ?_)
    rw [(sortAsc_perm _ _).mem_iff, List.mem_filter] at ha hb
    obtain ⟨x, hx⟩ := Option.isSome_iff_exists.mp ha.2
    obtain ⟨y, hy⟩ := Option.isSome_iff_exists.mp hb.2
    rw [hx, hy]
    rw [hx, hy] at hle
    simpa [descOrd] using hle
  · refine List.pairwise_of_forall_mem_list (fun a ha b hb => ?_)
    rw [List.mem_filter] at ha hb
    rw [Option.isNone_iff_eq_none.mp ha.2, Option.isNone_iff_eq_none.mp hb.2]
    exact trivial
  · intro a ha b hb
    rw [List.mem_reverse, (sortAsc_perm _ _).mem_iff] at ha
    rw [List.mem_filter] at hb
    rw [Option.isNone_iff_eq_none.mp hb.2]
    cases key a <;> exact trivial

theorem sortDescOptQ_perm (key : SegRow → Option ℚ) (l : List SegRow) :
    (sortDescOptQ key l).Perm l := by
  unfold sortDescOptQ
  refine List.Perm.trans (List.Perm.append_right _
    ((List.reverse_perm _).trans (sortAsc_perm _ _))) ?_
  have hfc : l.filter (fun a => (key a).isNone) =
      l.filter (fun a => !(key a).isSome) :=
    List.filter_congr (fun a _ => by cases key a <;> rfl)
  rw [hfc]
  exact List.filter_append_perm _ l

theorem sortDescStr_pairwise (key : SegRow → String) (l : List SegRow) :
    (sortDescStr key l).Pairwise (fun a b => strLe (key b) (key a) = true) := by
  unfold sortDescStr
  rw [List.pairwise_reverse]
  exact sortAsc_pairwise _ (fun a b c => strLe_trans (key a) (key b) (key c))
    (fun a b => strLe_total (key a) (key b)) l

theorem sortDescStr_perm (key : SegRow → String) (l : List SegRow) :
    (sortDescStr key l).Perm l :=
  (List.reverse_perm _).trans (sortAsc_perm _ l)

/-! ## C3 (amended) -/

/-- C3 (amended): for a present grouping key (with at least one aggregation
column present, else `segment_analysis` raises), the segment rows are sorted
descending by the *second* aggregation output column (the third output
column) whenever at least *two* aggregation columns exist (NaN sort keys
last); with exactly one aggregation column the rows are sorted descending by
the grouping key itself; and the rows are a permutation of the per-key
aggregation rows taken in ascending key order (ties ordered as the
descending reversal of the stable ascending sort leaves them). -/
theorem c3_segment_sort (t : Table) (c : String) (hc : c ∈ segCatCols)
    (hcol : t.hasCol c) (hav : availablePairs t ≠ []) :
    ∃ s : SegResult, segment_analysis t = Except.ok s ∧
      ((availablePairs t).length > 1 → RowsDescBy 1 (s.forKey c).rows) ∧
      ((availablePairs t).length = 1 → RowsDescByKey (s.forKey c).rows) ∧
      (s.forKey c).rows.Perm
        ((groupKeys (segPrep t) c).map (segRowOf (segPrep t) c)) := by
  obtain ⟨s, hs, hg, hl, he⟩ := segment_analysis_ok t hav
  refine ⟨s, hs, ?_⟩
  have hcol' : (segPrep t).hasCol c := by
    unfold Table.hasCol
    rw [segPrep_cols]
    exact hcol
  have hav' : ¬ (availablePairs (segPrep t)).isEmpty := by
    rw [availablePairs_segPrep]
    simpa [List.isEmpty_iff] using hav
  have key : ∀ g : SegTable, group_by (segPrep t) c = Except.ok g →
      ((availablePairs t).length > 1 → RowsDescBy 1 g.rows) ∧
      ((availablePairs t).length = 1 → RowsDescByKey g.rows) ∧
      g.rows.Perm ((groupKeys (segPrep t) c).map (segRowOf (segPrep t) c)) := by
    intro g hgb
    rw [group_by_present _ _ hcol' hav'] at hgb
    injection hgb with hgb
    rw [← hgb]
    rw [availablePairs_segPrep] at *
    by_cases hlen : (availablePairs t).length > 1
    · rw [if_pos hlen]
      exact ⟨fun _ => sortDescOptQ_pairwise _ _, fun h1 => by omega,
        sortDescOptQ_perm _ _⟩
    · rw [if_neg hlen]
      exact ⟨fun h1 => absurd h1 hlen, fun _ => sortDescStr_pairwise Prod.fst _,
        sortDescStr_perm _ _⟩
  fin_cases hc
  · exact (show s.forKey "GameGenre" = s.by_genre from rfl) ▸ key s.by_genre hg
  · exact (show s.forKey "Location" = s.by_location from rfl) ▸ key s.by_location hl
  · exact (show s.forKey "EngagementLevel" = s.by_engagement from rfl) ▸ key s.by_engagement he

/-- C3 witness: the amended theorem applied at `tblSort` (two aggregation
columns present). -/
theorem c3_segment_sort_witness :
    "GameGenre" ∈ segCatCols ∧ tblSort.hasCol "GameGenre" ∧
    availablePairs tblSort ≠ [] ∧
    ∃ s : SegResult, segment_analysis tblSort = Except.ok s ∧
      ((availablePairs tblSort).length > 1 → RowsDescBy 1 (s.forKey "GameGenre").rows) ∧
      ((availablePairs tblSort).length = 1 → RowsDescByKey (s.forKey "GameGenre").rows) ∧
      (s.forKey "GameGenre").rows.Perm
        ((groupKeys (segPrep tblSort) "GameGenre").map (segRowOf (segPrep tblSort) "GameGenre")) :=
  ⟨by decide, by decide, by decide,
    c3_segment_sort tblSort "GameGenre" (by decide) (by decide) (by decide)⟩

/-! ## C4 (amended) and C9 (amended) -/

/-- C4 (amended): for a present grouping key (and at least one aggregation
column present, without which `segment_analysis` raises), the segment table
has one column for the grouping key, one per present mean column, *two* for
`InGamePurchases` (mean and sum), and one `num_players` column only when
`PlayerID` is present. -/
theorem c4_segment_column_count (t : Table) (c : String) (hc : c ∈ segCatCols)
    (hcol : t.hasCol c) (hav : availablePairs t ≠ []) :
    ∃ s : SegResult, segment_analysis t = Except.ok s ∧
      (s.forKey c).cols.length =
        1 + (if t.hasCol "AvgSessionDurationMinutes" then 1 else 0) +
        (if t.hasCol "SessionsPerWeek" then 1 else 0) +
        (if t.hasCol "InGamePurchases" then 2 else 0) +
        (if t.hasCol "PlayerID" then 1 else 0) := by
  obtain ⟨s, hs, hg, hl, he⟩ := segment_analysis_ok t hav
  refine ⟨s, hs, ?_⟩
  have hcol' : (segPrep t).hasCol c := by
    unfold Table.hasCol
    rw [segPrep_cols]
    exact hcol
  have hav' : ¬ (availablePairs (segPrep t)).isEmpty := by
    rw [availablePairs_segPrep]
    simpa [List.isEmpty_iff] using hav
  have hlen : ∀ g : SegTable, group_by (segPrep t) c = Except.ok g →
      g.cols.length = 1 + (availablePairs t).length := by
    intro g hgb
    rw [group_by_present _ _ hcol' hav'] at hgb
    injection hgb with hgb
    rw [← hgb]
    simp only [availablePairs_segPrep, List.length_cons, List.length_map]
    omega
  have harith := availablePairs_length t
  fin_cases hc
  · rw [show s.forKey "GameGenre" = s.by_genre from rfl, hlen s.by_genre hg, harith]
    omega
  · rw [show s.forKey "Location" = s.by_location from rfl, hlen s.by_location hl, harith]
    omega
  · rw [show s.forKey "EngagementLevel" = s.by_engagement from rfl,
      hlen s.by_engagement he, harith]
    omega

/-- C4 witness: the amended count at the all-columns table: 6 columns. -/
theorem c4_segment_column_count_witness :
    "GameGenre" ∈ segCatCols ∧ tblFull.hasCol "GameGenre" ∧
    availablePairs tblFull ≠ [] ∧
    ∃ s : SegResult, segment_analysis tblFull = Except.ok s ∧
      (s.forKey "GameGenre").cols.length =
        1 + (if tblFull.hasCol "AvgSessionDurationMinutes" then 1 else 0) +
        (if tblFull.hasCol "SessionsPerWeek" then 1 else 0) +
        (if tblFull.hasCol "InGamePurchases" then 2 else 0) +
        (if tblFull.hasCol "PlayerID" then 1 else 0) :=
  ⟨by decide, by decide, by decide,
    c4_segment_column_count tblFull "GameGenre" (by decide) (by decide) (by decide)⟩

/-- C9 (amended): `compute_kpis` is total, and `segment_analysis` returns
normally provided at least one aggregation column is present or no grouping
column is present; the remaining case (a grouping column without any
aggregation column) raises, as the counterexample shows. -/
theorem c9_degrade_without_exception (t : Table) :
    (∃ k : KpiResult, compute_kpis t = k) ∧
    ((availablePairs t ≠ [] ∨ ∀ k ∈ segCatCols, ¬ t.hasCol k) →
      ∃ s : SegResult, segment_analysis t = Except.ok s) := by
  refine ⟨⟨compute_kpis t, rfl⟩, fun h => ?_⟩
  rcases h with hav | habs
  · obtain ⟨s, hs, -⟩ := segment_analysis_ok t hav
    exact ⟨s, hs⟩
  · exact ⟨_, segment_analysis_all_absent t habs⟩

/-- C9 witness: the amended theorem applied at the all-columns table. -/
theorem c9_degrade_witness :
    (availablePairs tblFull ≠ [] ∨ ∀ k ∈ segCatCols, ¬ tblFull.hasCol k) ∧
    ∃ s : SegResult, segment_analysis tblFull = Except.ok s :=
  ⟨Or.inl (by decide),
    (c9_degrade_without_exception tblFull).2 (Or.inl (by decide))⟩

/-! ## Counterexamples for C3, C4, C8, C9 -/

/-- C3 counterexample: on `tblSort` (grouping column present, two
aggregation columns), the produced rows are `[A, B]`, which is *not*
descending in the first aggregation column (`AvgSessionDurationMinutes_mean`:
1 then 2) — the code sorts by the second aggregation column
(`SessionsPerWeek_mean`: 10 then 5), refuting the claim's sort key. -/
theorem c3_counterexample :
    (segment_analysis tblSort).map (fun s => s.by_genre.rows) =
      Except.ok [("A", [some 1, some 10]), ("B", [some 2, some 5])] ∧
    ¬ RowsDescBy 0 [("A", [some 1, some 10]), ("B", [some 2, some 5])] := by
  constructor
  · rfl
  · decide

/-- C4 counterexample: with all aggregation-eligible columns present the
`by_genre` segment table has 6 columns (`GameGenre`, two means, the
purchases mean *and* sum, `num_players`), not the claimed 3 + 1 + 1 = 5. -/
theorem c4_counterexample :
    (segment_analysis tblFull).map (fun s => s.by_genre.cols.length) = Except.ok 6 ∧
    (6 : ℕ) ≠ 3 + 1 + 1 := by
  constructor
  · rfl
  · decide

/-- C8 counterexample: `tblNoAgg` lacks the grouping column `Location`, yet
`segment_analysis` does not return an empty segment table for it — the
`GameGenre` grouping raises (empty aggregation dictionary), so the whole
call raises. -/
theorem c8_counterexample :
    ¬ tblNoAgg.hasCol "Location" ∧ "Location" ∈ segCatCols ∧
    segment_analysis tblNoAgg = Except.error "No objects to concatenate" := by
  refine ⟨by decide, by decide, ?_⟩
  rfl

/-- C9 counterexample: a table with a grouping column but none of the four
aggregation columns makes `segment_analysis` raise
(`groupby(...).agg({})` → `ValueError: No objects to concatenate`), so not
every input degrades to a well-defined value. -/
theorem c9_counterexample :
    segment_analysis tblNoAgg = Except.error "No objects to concatenate" := by
  rfl

/-! ## Adding a column on the right (for C8's non-interference part) -/

theorem modifyIdx_append_lt (f : Cell → Cell) :
    ∀ (i : ℕ) (r : List Cell) (v : Cell), i < r.length →
      modifyIdx f i (r ++ [v]) = modifyIdx f i r ++ [v]
  | _, [], _, h => absurd h (by simp)
  | 0, _ :: _, _, _ => rfl
  | n + 1, _ :: cs, v, h => by
    simp only [List.cons_append, modifyIdx, List.append_eq]
    rw [modifyIdx_append_lt f n cs v (Nat.lt_of_succ_lt_succ h)]

theorem modifyIdx_append_self (f : Cell → Cell) :
    ∀ (r : List Cell) (v : Cell), modifyIdx f r.length (r ++ [v]) = r ++ [f v]
  | [], _ => rfl
  | c :: cs, v => by
    simp only [List.cons_append, List.length_cons, modifyIdx, List.append_eq]
    rw [modifyIdx_append_self f cs v]

theorem colIdx?_append_ne (cols : List String) (c x : String) (hne : x ≠ c) :
    colIdx? (cols ++ [c]) x = colIdx? cols x := by
  unfold colIdx?
  rw [List.findIdx?_append]
  have hcx : c ≠ x := Ne.symm hne
  have h1 : ([c].findIdx? (fun y => decide (y = x))) = none := by
    simp [List.findIdx?_cons, hcx]
  rw [h1]
  simp

theorem colIdx?_append_self (cols : List String) (c : String) (hc : c ∉ cols) :
    colIdx? (cols ++ [c]) c = some cols.length := by
  unfold colIdx?
  rw [List.findIdx?_append]
  have h0 : cols.findIdx? (fun y => decide (y = c)) = none := by
    rw [List.findIdx?_eq_none_iff]
    intro x hx
    simp only [decide_eq_false_iff_not]
    exact fun he => hc (he ▸ hx)
  have h1 : ([c].findIdx? (fun y => decide (y = c))) = some 0 := by
    simp [List.findIdx?_cons]
  rw [h0, h1]
  simp

theorem cellAt_append (cols : List String) (r : List Cell) (c x : String) (v : Cell)
    (hne : x ≠ c) (hlen : r.length = cols.length) :
    cellAt (cols ++ [c]) (r ++ [v]) x = cellAt cols r x := by
  unfold cellAt
  rw [colIdx?_append_ne cols c x hne]
  cases h : colIdx? cols x with
  | none => rfl
  | some i =>
    obtain ⟨hlt, -⟩ := colIdx?_getElem h
    have hi : i < r.length := by rw [hlen]; exact hlt
    simp [List.getD_eq_getElem?_getD, List.getElem?_append_left hi]

theorem addCol_cols (t : Table) (c : String) (vs : List Cell) :
    (addCol t c vs).cols = t.cols ++ [c] := rfl

theorem addCol_hasCol_ne (t : Table) (c : String) (vs : List Cell) (x : String)
    (hne : x ≠ c) : ((addCol t c vs).hasCol x ↔ t.hasCol x) := by
  unfold Table.hasCol addCol
  simp [hne]

theorem zipWith_append_congr {g : List Cell → List Cell} :
    ∀ (rows : List (List Cell)) (vs : List Cell),
      (∀ r ∈ rows, ∀ v : Cell, g (r ++ [v]) = g r ++ [v]) →
      (List.zipWith (fun r v => r ++ [v]) rows vs).map g =
        List.zipWith (fun r v => r ++ [v]) (rows.map g) vs
  | [], _, _ => by simp
  | _ :: _, [], _ => by simp
  | r :: rs, v :: ws, h => by
    simp only [List.zipWith_cons_cons, List.map_cons]
    rw [h r (by simp) v,
      zipWith_append_congr rs ws (fun r' hr' => h r' (List.mem_cons_of_mem r hr'))]

theorem mapCol_addCol_ne (t : Table) (c x : String) (f : Cell → Cell) (vs : List Cell)
    (hne : x ≠ c) (hA : t.Aligned) :
    mapCol (addCol t c vs) x f = addCol (mapCol t x f) c vs := by
  have hidx : colIdx? ((addCol t c vs).cols) x = colIdx? t.cols x :=
    colIdx?_append_ne t.cols c x hne
  unfold mapCol
  rw [hidx]
  cases h : colIdx? t.cols x with
  | none => rfl
  | some i =>
    obtain ⟨hlt, -⟩ := colIdx?_getElem h
    show Table.mk ((addCol t c vs).cols) ((addCol t c vs).rows.map (modifyIdx f i)) =
      addCol ⟨t.cols, t.rows.map (modifyIdx f i)⟩ c vs
    unfold addCol
    simp only [Table.mk.injEq, true_and]
    exact zipWith_append_congr t.rows vs
      (fun r hr v => modifyIdx_append_lt f i r v (by rw [hA r hr]; exact hlt))

theorem zipWith_append_self_congr {g : Cell → Cell} (n : ℕ) :
    ∀ (rows : List (List Cell)) (vs : List Cell),
      (∀ r ∈ rows, r.length = n) →
      (List.zipWith (fun r v => r ++ [v]) rows vs).map (modifyIdx g n) =
        List.zipWith (fun r v => r ++ [v]) rows (vs.map g)
  | [], _, _ => by simp
  | _ :: _, [], _ => by simp
  | r :: rs, v :: ws, h => by
    simp only [List.zipWith_cons_cons, List.map_cons]
    have hr : r.length = n := h r (by simp)
    rw [show modifyIdx g n (r ++ [v]) = r ++ [g v] from by
        rw [← hr]; exact modifyIdx_append_self g r v,
      zipWith_append_self_congr n rs ws (fun r' hr' => h r' (List.mem_cons_of_mem r hr'))]

theorem mapCol_addCol_self (t : Table) (c : String) (f : Cell → Cell) (vs : List Cell)
    (hc : ¬ t.hasCol c) (hA : t.Aligned) :
    mapCol (addCol t c vs) c f = addCol t c (vs.map f) := by
  unfold mapCol
  rw [show colIdx? ((addCol t c vs).cols) c = some t.cols.length from
    colIdx?_append_self t.cols c hc]
  show Table.mk ((addCol t c vs).cols) ((addCol t c vs).rows.map (modifyIdx f t.cols.length)) =
    addCol t c (vs.map f)
  unfold addCol
  simp only [Table.mk.injEq, true_and]
  exact zipWith_append_self_congr t.cols.length t.rows vs hA

theorem coerceCols_addCol : ∀ (names : List String) (t : Table) (c : String) (vs : List Cell),
    c ∉ names → t.Aligned →
    coerceCols names (addCol t c vs) = addCol (coerceCols names t) c vs
  | [], _, _, _, _, _ => rfl
  | n :: ns, t, c, vs, hni, hA => by
    show coerceCols ns (mapCol (addCol t c vs) n toNumericCell) = _
    rw [mapCol_addCol_ne t c n toNumericCell vs (fun he => hni (he ▸ List.mem_cons_self n ns)) hA,
      coerceCols_addCol ns (mapCol t n toNumericCell) c vs
        (fun hm => hni (List.mem_cons_of_mem n hm)) (mapCol_aligned t n toNumericCell hA)]
    rfl

theorem segPrep_aligned (t : Table) (hA : t.Aligned) : (segPrep t).Aligned := by
  show (mapCol (mapCol (mapCol (coerceCols segNumericCols t)
    "GameGenre" normCell) "Location" normCell) "EngagementLevel" normCell).Aligned
  exact mapCol_aligned _ _ _ (mapCol_aligned _ _ _ (mapCol_aligned _ _ _
    (coerceCols_aligned segNumericCols t hA)))

theorem segPrep_addCol (t : Table) (c : String) (vs : List Cell)
    (hc : c ∈ segCatCols) (habsent : ¬ t.hasCol c) (hA : t.Aligned) :
    segPrep (addCol t c vs) = addCol (segPrep t) c (vs.map normCell) := by
  have hA1 : (coerceCols segNumericCols t).Aligned := coerceCols_aligned _ t hA
  have habs1 : ¬ (coerceCols segNumericCols t).hasCol c := by
    unfold Table.hasCol
    rw [coerceCols_cols]
    exact habsent
  fin_cases hc
  · show mapCol (mapCol (mapCol (coerceCols segNumericCols (addCol t "GameGenre" vs))
        "GameGenre" normCell) "Location" normCell) "EngagementLevel" normCell =
      addCol (mapCol (mapCol (mapCol (coerceCols segNumericCols t)
        "GameGenre" normCell) "Location" normCell) "EngagementLevel" normCell)
        "GameGenre" (vs.map normCell)
    rw [coerceCols_addCol _ t _ vs (by decide) hA,
      mapCol_addCol_self _ _ _ _ habs1 hA1,
      mapCol_addCol_ne _ _ _ _ _ (by decide) hA1,
      mapCol_addCol_ne _ _ _ _ _ (by decide) (mapCol_aligned _ _ _ hA1),
      mapCol_absent (coerceCols segNumericCols t) "GameGenre" normCell habs1]
  · show mapCol (mapCol (mapCol (coerceCols segNumericCols (addCol t "Location" vs))
        "GameGenre" normCell) "Location" normCell) "EngagementLevel" normCell =
      addCol (mapCol (mapCol (mapCol (coerceCols segNumericCols t)
        "GameGenre" normCell) "Location" normCell) "EngagementLevel" normCell)
        "Location" (vs.map normCell)
    rw [coerceCols_addCol _ t _ vs (by decide) hA,
      mapCol_addCol_ne _ _ _ _ _ (by decide) hA1,
      mapCol_addCol_self _ _ _ _ (by
        unfold Table.hasCol
        rw [mapCol_cols, coerceCols_cols]
        exact habsent) (mapCol_aligned _ _ _ hA1),
      mapCol_addCol_ne _ _ _ _ _ (by decide) (mapCol_aligned _ _ _ hA1),
      mapCol_absent (mapCol (coerceCols segNumericCols t) "GameGenre" normCell)
        "Location" normCell (by
          unfold Table.hasCol
          rw [mapCol_cols, coerceCols_cols]
          exact habsent)]
  · show mapCol (mapCol (mapCol (coerceCols segNumericCols (addCol t "EngagementLevel" vs))
        "GameGenre" normCell) "Location" normCell) "EngagementLevel" normCell =
      addCol (mapCol (mapCol (mapCol (coerceCols segNumericCols t)
        "GameGenre" normCell) "Location" normCell) "EngagementLevel" normCell)
        "EngagementLevel" (vs.map normCell)
    rw [coerceCols_addCol _ t _ vs (by decide) hA,
      mapCol_addCol_ne _ _ _ _ _ (by decide) hA1,
      mapCol_addCol_ne _ _ _ _ _ (by decide) (mapCol_aligned _ _ _ hA1),
      mapCol_addCol_self _ _ _ _ (by
        unfold Table.hasCol
        rw [mapCol_cols, mapCol_cols, coerceCols_cols]
        exact habsent) (mapCol_aligned _ _ _ (mapCol_aligned _ _ _ hA1)),
      mapCol_absent (mapCol (mapCol (coerceCols segNumericCols t) "GameGenre" normCell)
        "Location" normCell) "EngagementLevel" normCell (by
          unfold Table.hasCol
          rw [mapCol_cols, mapCol_cols, coerceCols_cols]
          exact habsent)]

theorem availablePairs_addCol (t : Table) (c : String) (vs : List Cell)
    (hagg : ∀ p ∈ aggregations, p.1 ≠ c) :
    availablePairs (addCol t c vs) = availablePairs t := by
  unfold availablePairs
  rw [addCol_cols]
  congr 1
  refine List.filter_congr (fun p hp => ?_)
  rw [decide_eq_decide]
  simp [List.mem_append, hagg p hp]

theorem availablePairs_fst (t : Table) (p : String × AggFun)
    (hp : p ∈ availablePairs t) : ∃ q ∈ aggregations, p.1 = q.1 := by
  unfold availablePairs at hp
  rw [List.mem_flatMap] at hp
  obtain ⟨a, ha, hpa⟩ := hp
  rw [List.mem_map] at hpa
  obtain ⟨f, -, rfl⟩ := hpa
  exact ⟨a, List.mem_of_mem_filter ha, rfl⟩

theorem group_by_error (u : Table) (c : String) (hcol : u.hasCol c)
    (hav : (availablePairs u).isEmpty) :
    group_by u c = Except.error "No objects to concatenate" := by
  simp only [group_by]
  rw [if_neg (not_not_intro hcol), if_pos hav]

theorem map_zipWith_append {β : Type} (gext : List Cell → β) (g : List Cell → β) :
    ∀ (rows : List (List Cell)) (vs : List Cell), vs.length = rows.length →
      (∀ r ∈ rows, ∀ v : Cell, gext (r ++ [v]) = g r) →
      (List.zipWith (fun r v => r ++ [v]) rows vs).map gext = rows.map g
  | [], _, _, _ => by simp
  | _ :: _, [], hlen, _ => by simp at hlen
  | r :: rs, v :: ws, hlen, h => by
    simp only [List.zipWith_cons_cons, List.map_cons]
    rw [h r (by simp) v, map_zipWith_append gext g rs ws (by simpa using hlen)
      (fun r' hr' => h r' (List.mem_cons_of_mem r hr'))]

theorem filter_map_zipWith_append {β : Type} (Pext P : List Cell → Bool)
    (gext : List Cell → β) (g : List Cell → β) :
    ∀ (rows : List (List Cell)) (vs : List Cell), vs.length = rows.length →
      (∀ r ∈ rows, ∀ v : Cell, Pext (r ++ [v]) = P r ∧ gext (r ++ [v]) = g r) →
      ((List.zipWith (fun r v => r ++ [v]) rows vs).filter Pext).map gext =
        (rows.filter P).map g
  | [], _, _, _ => by simp
  | _ :: _, [], hlen, _ => by simp at hlen
  | r :: rs, v :: ws, hlen, h => by
    simp only [List.zipWith_cons_cons, List.filter_cons]
    obtain ⟨hP, hg⟩ := h r (by simp) v
    have htail := filter_map_zipWith_append Pext P gext g rs ws (by simpa using hlen)
      (fun r' hr' => h r' (List.mem_cons_of_mem r hr'))
    cases hPr : P r with
    | true =>
      rw [hP, hPr]
      simp [hg, htail]
    | false =>
      rw [hP, hPr]
      simpa using htail

theorem rowKey_append (cols : List String) (c k : String) (r : List Cell) (v : Cell)
    (hne : k ≠ c) (hlen : r.length = cols.length) :
    rowKey (cols ++ [c]) k (r ++ [v]) = rowKey cols k r := by
  unfold rowKey
  rw [cellAt_append cols r c k v hne hlen]

theorem groupKeys_addCol (t : Table) (c k : String) (vs : List Cell)
    (hkc : k ≠ c) (hA : t.Aligned) (hlen : vs.length = t.rows.length) :
    groupKeys (addCol t c vs) k = groupKeys t k := by
  unfold groupKeys
  rw [show (addCol t c vs).rows = List.zipWith (fun r v => r ++ [v]) t.rows vs from rfl,
    show (addCol t c vs).cols = t.cols ++ [c] from rfl,
    map_zipWith_append (rowKey (t.cols ++ [c]) k) (rowKey t.cols k) t.rows vs hlen
      (fun r hr v => rowKey_append t.cols c k r v hkc (hA r hr))]

theorem segRowOf_addCol (t : Table) (c k : String) (vs : List Cell) (K : String)
    (hkc : k ≠ c) (hagg : ∀ p ∈ aggregations, p.1 ≠ c) (hA : t.Aligned)
    (hlen : vs.length = t.rows.length) :
    segRowOf (addCol t c vs) k K = segRowOf t k K := by
  unfold segRowOf
  rw [availablePairs_addCol t c vs hagg]
  refine congrArg (Prod.mk K) (List.map_congr_left (fun p hp => ?_))
  refine congrArg (applyAgg p.2) ?_
  unfold groupMembers
  rw [show (addCol t c vs).rows = List.zipWith (fun r v => r ++ [v]) t.rows vs from rfl,
    show (addCol t c vs).cols = t.cols ++ [c] from rfl]
  have hp1 : p.1 ≠ c := by
    obtain ⟨q, hq, he⟩ := availablePairs_fst t p hp
    rw [he]
    exact hagg q hq
  exact filter_map_zipWith_append _ _ _ _ t.rows vs hlen
    (fun r hr v => ⟨by rw [rowKey_append t.cols c k r v hkc (hA r hr)],
      cellAt_append t.cols r c p.1 v hp1 (hA r hr)⟩)

theorem group_by_addCol_ne (u : Table) (c : String) (ws : List Cell) (k : String)
    (hkc : k ≠ c) (hagg : ∀ p ∈ aggregations, p.1 ≠ c) (hA : u.Aligned)
    (hlen : ws.length = u.rows.length) :
    group_by (addCol u c ws) k = group_by u k := by
  have hav := availablePairs_addCol u c ws hagg
  by_cases hk : u.hasCol k
  · have hk' : (addCol u c ws).hasCol k := (addCol_hasCol_ne u c ws k hkc).mpr hk
    by_cases he : (availablePairs u).isEmpty
    · rw [group_by_error _ _ hk' (by rw [hav]; exact he), group_by_error _ _ hk he]
    · rw [group_by_present _ _ hk' (by rw [hav]; exact he), group_by_present _ _ hk he,
        hav, groupKeys_addCol u c k ws hkc hA hlen,
        List.map_congr_left (fun K _ => segRowOf_addCol u c k ws K hkc hagg hA hlen)]
  · have hk' : ¬ (addCol u c ws).hasCol k :=
      fun hcc => hk ((addCol_hasCol_ne u c ws k hkc).mp hcc)
    rw [group_by_absent _ _ hk', group_by_absent _ _ hk]

/-! ## C8 (amended) -/

/-- C8 (amended): for an absent grouping column `c` (and provided some
aggregation column is present or every grouping column is absent — otherwise
`segment_analysis` raises, as the counterexample shows), `segment_analysis`
returns normally with the empty segment table for `c`; and the absence of
`c` does not affect the other two keys: adding any column `c` (of matching
height) to the table leaves the other keys' segment tables unchanged. -/
theorem c8_absent_key_empty_and_independent (t : Table) (c : String) (vs : List Cell)
    (hc : c ∈ segCatCols) (habsent : ¬ t.hasCol c) (hA : t.Aligned)
    (hlen : vs.length = t.rows.length) :
    ((availablePairs t ≠ [] ∨ ∀ k ∈ segCatCols, ¬ t.hasCol k) →
      ∃ s : SegResult, segment_analysis t = Except.ok s ∧ s.forKey c = SegTable.mk [] []) ∧
    (availablePairs t ≠ [] →
      ∃ s s' : SegResult, segment_analysis t = Except.ok s ∧
        segment_analysis (addCol t c vs) = Except.ok s' ∧
        ∀ k ∈ segCatCols, k ≠ c → s'.forKey k = s.forKey k) := by
  have habs' : ¬ (segPrep t).hasCol c := by
    unfold Table.hasCol
    rw [segPrep_cols]
    exact habsent
  have hagg : ∀ p ∈ aggregations, p.1 ≠ c := by
    fin_cases hc <;> decide
  constructor
  · rintro (hav | hall)
    · obtain ⟨s, hs, hg, hl, he⟩ := segment_analysis_ok t hav
      refine ⟨s, hs, ?_⟩
      have hempty := group_by_absent (segPrep t) c habs'
      fin_cases hc
      · exact Except.ok.inj (hg.symm.trans hempty)
      · exact Except.ok.inj (hl.symm.trans hempty)
      · exact Except.ok.inj (he.symm.trans hempty)
    · rw [segment_analysis_all_absent t hall]
      refine ⟨_, rfl, ?_⟩
      fin_cases hc <;> rfl
  · intro hav
    obtain ⟨s, hs, hg, hl, he⟩ := segment_analysis_ok t hav
    have hav' : availablePairs (addCol t c vs) ≠ [] := by
      rw [availablePairs_addCol t c vs hagg]
      exact hav
    obtain ⟨s', hs', hg', hl', he'⟩ := segment_analysis_ok (addCol t c vs) hav'
    refine ⟨s, s', hs, hs', ?_⟩
    intro k hk hkc
    have hgb : group_by (segPrep (addCol t c vs)) k = group_by (segPrep t) k := by
      rw [segPrep_addCol t c vs hc habsent hA,
        group_by_addCol_ne (segPrep t) c (vs.map normCell) k hkc hagg
          (segPrep_aligned t hA)
          (by rw [List.length_map, hlen, segPrep_rows_length])]
    fin_cases hk
    · exact Except.ok.inj (hg'.symm.trans (hgb.trans hg))
    · exact Except.ok.inj (hl'.symm.trans (hgb.trans hl))
    · exact Except.ok.inj (he'.symm.trans (hgb.trans he))

/-- C8 witness: the amended theorem at a concrete table lacking `Location`
(aggregation columns present), with a concrete added column. -/
theorem c8_absent_key_witness :
    "Location" ∈ segCatCols ∧ ¬ tblSort.hasCol "Location" ∧ tblSort.Aligned ∧
    ([Cell.str "EU", Cell.str "US"] : List Cell).length = tblSort.rows.length ∧
    ((availablePairs tblSort ≠ [] ∨ ∀ k ∈ segCatCols, ¬ tblSort.hasCol k) →
      ∃ s : SegResult, segment_analysis tblSort = Except.ok s ∧
        s.forKey "Location" = SegTable.mk [] []) ∧
    (availablePairs tblSort ≠ [] →
      ∃ s s' : SegResult, segment_analysis tblSort = Except.ok s ∧
        segment_analysis (addCol tblSort "Location" [Cell.str "EU", Cell.str "US"]) =
          Except.ok s' ∧
        ∀ k ∈ segCatCols, k ≠ "Location" → s'.forKey k = s.forKey k) := by
  refine ⟨by decide, by decide, by decide, by decide, ?_, ?_⟩
  · exact (c8_absent_key_empty_and_independent tblSort "Location"
      [Cell.str "EU", Cell.str "US"] (by decide) (by decide) (by decide) (by decide)).1
  · exact (c8_absent_key_empty_and_independent tblSort "Location"
      [Cell.str "EU", Cell.str "US"] (by decide) (by decide) (by decide) (by decide)).2

end Engagement
